import Mathlib

/-!
Verification development for the document-digitization pipeline
(Since2024/First_Bounty).

The Python sources are shallowly embedded: Python strings are lists of
characters (`PyStr`), fallible code returns `Except Unit`, floats that
only ever take the values 0.0, 0.8, 1.0 (field confidences) are
represented in integer tenths, and the remote services (Gemini, the
Solana RPC client, Tesseract) are oracles passed in as explicit
parameters.  Character-level semantics of the Python primitives
(`str.strip`, `str.lower`, `str.isdigit`, `int(...)`, the regexes
`\s+` and `\D`) are modelled over the character classes that actually
occur in the pipeline: ASCII, Devanagari digits (which Python treats
as decimal digits), and superscript digits (which `str.isdigit`
accepts but `int(...)` rejects).
-/

deriving instance DecidableEq for Except

namespace Spec2Proof

/-- Python strings, embedded as lists of characters. -/
abbrev PyStr := List Char

/-- Python `\s` / `str.strip` whitespace (the ASCII subset), by code point:
space, tab, newline, carriage return, vertical tab, form feed. -/
def isWs (c : Char) : Bool :=
  c.toNat = 32 || c.toNat = 9 || c.toNat = 10 || c.toNat = 13 ||
    c.toNat = 11 || c.toNat = 12

/-- ASCII decimal digits `0`-`9` (code points 48-57). -/
def isAsciiDigit (c : Char) : Bool := 48 ≤ c.toNat && c.toNat ≤ 57

/-- Devanagari digits `०`-`९` (U+0966..U+096F, code points 2406-2415),
Unicode category Nd. -/
def isNepaliDigit (c : Char) : Bool := 2406 ≤ c.toNat && c.toNat ≤ 2415

/-- Superscript digit glyphs `¹`, `²`, `³`: Python `str.isdigit` accepts
them but `int(...)` raises `ValueError` on them (they are not Nd). -/
def isSuperDigit (c : Char) : Bool :=
  c.toNat = 185 || c.toNat = 178 || c.toNat = 179

/-- Characters on which Python `str.isdigit` is true (over the character
classes used in this development). -/
def pyDigitChar (c : Char) : Bool := isAsciiDigit c || isNepaliDigit c || isSuperDigit c

/-- Characters accepted by Python `int(...)` and matched by the regex `\d`
(Unicode decimal digits, category Nd). -/
def decimalChar (c : Char) : Bool := isAsciiDigit c || isNepaliDigit c

/-- Python `str.isdigit`: nonempty and every character in the digit class. -/
def pyIsDigit (l : PyStr) : Bool := !l.isEmpty && l.all pyDigitChar

/-- Numeric value of a single decimal digit character. -/
def charVal (c : Char) : Nat :=
  if isAsciiDigit c then c.toNat - 48
  else if isNepaliDigit c then c.toNat - 2406
  else 0

/-- Base-10 value of a digit string (Horner evaluation, as `int` computes it). -/
def listVal (l : PyStr) : Nat := l.foldl (fun a c => 10 * a + charVal c) 0

/-- Python `int(s)` on the strings reachable in this pipeline (all-digit-class
strings): succeeds exactly on nonempty strings of Unicode decimal digits,
and fails (`ValueError`) otherwise — in particular on superscript digits. -/
def pyIntNat (l : PyStr) : Option Nat :=
  if !l.isEmpty && l.all decimalChar then some (listVal l) else none

/-- ASCII character for a digit value (values `≥ 9` clamp to `9`; only used
with values below 10). -/
def digitChar (d : Nat) : Char :=
  match d with
  | 0 => '0' | 1 => '1' | 2 => '2' | 3 => '3' | 4 => '4'
  | 5 => '5' | 6 => '6' | 7 => '7' | 8 => '8' | _ => '9'

/-- Fuel-driven decimal rendering of a natural number (big-endian digits). -/
def natCharsAux : Nat → Nat → PyStr
  | 0, _ => []
  | fuel + 1, n =>
    if n < 10 then [digitChar n]
    else natCharsAux fuel (n / 10) ++ [digitChar (n % 10)]

/-- Decimal digit string of `n` (no padding). -/
def natChars (n : Nat) : PyStr := natCharsAux (n + 1) n

/-- Left-pad with `'0'` to width `w`: Python `f-string` `0wd` formatting. -/
def padZeros (w : Nat) (l : PyStr) : PyStr := List.replicate (w - l.length) '0' ++ l

/-- Python `f"{n:0wd}"`. -/
def fmt0 (w n : Nat) : PyStr := padZeros w (natChars n)

/-- Python `str.strip` of the trailing end. -/
def dropEndWs : PyStr → PyStr
  | [] => []
  | c :: t =>
    if dropEndWs t = [] then (if isWs c then [] else [c]) else c :: dropEndWs t

/-- Python `str.strip()`. -/
def pyStrip (l : PyStr) : PyStr := dropEndWs (l.dropWhile isWs)

/-- Python `str.lower()`, character-wise (`Char.toLower` is the ASCII case map,
matching Python on the characters used here). -/
def pyLower (l : PyStr) : PyStr := l.map Char.toLower

/-- One step of `re.sub(r"\s+", " ", ·)`: the flag records whether the
previous character was inside a whitespace run. -/
def collapseGo : Bool → PyStr → PyStr
  | _, [] => []
  | prevWs, c :: rest =>
    if isWs c then
      (if prevWs then collapseGo true rest else ' ' :: collapseGo true rest)
    else c :: collapseGo false rest

/-- Python `re.sub(r"\s+", " ", s)`. -/
def collapseWs (l : PyStr) : PyStr := collapseGo false l

/-- Python `re.sub(r"\s+", "", s)`. -/
def removeWs (l : PyStr) : PyStr := l.filter (fun c => !isWs c)

/-- Python `s.replace(" ", "")`. -/
def removeSpaces (l : PyStr) : PyStr := l.filter (fun c => !(c = ' '))

/-- Python single-character `s.replace(a, b)`. -/
def replaceChar (a b : Char) (l : PyStr) : PyStr :=
  l.map (fun c => if c = a then b else c)

/-- Translation table `NEPALI_DIGITS`: the Devanagari digit of value `d`
maps to the ASCII digit of value `d`, everything else is unchanged
(Python `str.translate`). -/
def translateCh (c : Char) : Char :=
  if isNepaliDigit c then digitChar (c.toNat - 2406) else c

/-- `_normalize_digits`: `value.translate(NEPALI_DIGITS)`. -/
def translateNep (l : PyStr) : PyStr := l.map translateCh

/-- Python `s.split(sep)` for a single-character separator. -/
def splitChar (sep : Char) : PyStr → List PyStr
  | [] => [[]]
  | c :: rest =>
    if c = sep then [] :: splitChar sep rest
    else
      match splitChar sep rest with
      | [] => [[c]]
      | h :: t => (c :: h) :: t

/-- Python `needle in haystack` substring test. -/
def inStr (n : PyStr) : PyStr → Bool
  | [] => n.isEmpty
  | c :: t => n.isPrefixOf (c :: t) || inStr n t

/-- Python `s[-k:]` for a list known to be at least `k` long. -/
def lastN (k : Nat) (l : PyStr) : PyStr := l.drop (l.length - k)

example : natChars 34567 = ['3', '4', '5', '6', '7'] := by decide
example : pyStrip ("  ab c  ".data) = "ab c".data := by decide
example : collapseWs (" a \t b ".data) = " a b ".data := by decide
example : splitChar '-' ("1-2-34567".data) = ["1".data, "2".data, "34567".data] := by decide
example : pyIntNat ("२०२४".data) = some 2024 := by decide
example : pyIsDigit ("²".data) = true ∧ pyIntNat ("²".data) = none := by decide

/-! ## `app/filler/form_filler.py`: the field normalizer -/

/-- String literal `"email"`. -/
def sEmail : PyStr := "email".data

/-- String literal `"phone"`. -/
def sPhone : PyStr := "phone".data

/-- String literal `"date"`. -/
def sDate : PyStr := "date".data

/-- String literal `"text_date"`. -/
def sTextDate : PyStr := "text_date".data

/-- String literal `"number"`. -/
def sNumber : PyStr := "number".data

/-- String literal `"box_grid"`. -/
def sBoxGrid : PyStr := "box_grid".data

/-- The `clean` value of `_normalize_date` (lines 18-19): translate
localized digits, collapse `.` and `/` to `-`, remove all whitespace. -/
def dateClean (value : PyStr) : PyStr :=
  removeWs (replaceChar '/' '-' (replaceChar '.' '-' (translateNep value)))

/-- The output shape of a successful date parse:
`f"{year:04d}-{month:02d}-{day:02d}"`. -/
def dateFmt (y m d : Nat) : PyStr :=
  fmt0 4 y ++ '-' :: (fmt0 2 m ++ '-' :: fmt0 2 d)

/-- `_normalize_date`, source lines 17-30.  The branch where all three parts
pass `str.isdigit` but `int(...)` raises `ValueError` (superscript digits)
is the `.error` case. -/
def normalize_date (value : PyStr) : Except Unit PyStr :=
  match splitChar '-' (dateClean value) with
  | [p0, p1, p2] =>
    let year := if p0.length = 4 then p0 else p2
    let month := p1
    let day := if p0.length = 4 then p2 else p0
    if pyIsDigit year && pyIsDigit month && pyIsDigit day then
      match pyIntNat year, pyIntNat month, pyIntNat day with
      | some y, some m, some d => .ok (dateFmt y m d)
      | _, _, _ => .error ()
    else .ok (pyStrip value)
  | _ => .ok (pyStrip value)

/-- The numeric value that `_normalize_date` would assign to the year
component, when the cleaned value splits into exactly three parts. -/
def dateYearNum (value : PyStr) : Option Nat :=
  match splitChar '-' (dateClean value) with
  | [p0, _, p2] => pyIntNat (if p0.length = 4 then p0 else p2)
  | _ => none

/-- `re.sub(r"\D", "", _normalize_digits(value))`: keep Unicode decimal
digits only, after the Devanagari-to-ASCII translation. -/
def phoneDigits (value : PyStr) : PyStr := (translateNep value).filter decimalChar

/-- The country-code and length reduction steps of `_normalize_phone`. -/
def phoneReduce (value : PyStr) : PyStr :=
  let d0 := phoneDigits value
  let d1 := if ("977".data).isPrefixOf d0 && decide (d0.length > 10) then lastN 10 d0 else d0
  if d1.length > 10 then lastN 10 d1 else d1

/-- The final acceptance test of `_normalize_phone`:
`len(digits) == 10 and digits[0] == "9" and digits[1] in ("7", "8")`. -/
def phoneValid (d : PyStr) : Bool :=
  d.length = 10 &&
    (match d with
     | c0 :: c1 :: _ => c0 = '9' && (c1 = '7' || c1 = '8')
     | _ => false)

/-- `_normalize_phone`, source lines 33-50. -/
def normalize_phone (value : PyStr) : PyStr :=
  if phoneValid (phoneReduce value) then phoneReduce value else value

/-- `_normalize_email`, source lines 53-63.  Note that `value` is rebound to
`value.strip().lower()` before the checks, and both the accepting and the
fall-through branch return that rebound value. -/
def normalize_email (value : PyStr) : PyStr :=
  let v := pyLower (pyStrip value)
  if v.contains '@' && v.contains '.' then
    let parts := splitChar '@' v
    let p0 := parts.headD []
    let p1 := (parts.drop 1).headD []
    if decide (p0.length > 0) && decide (p1.length > 2) && p1.contains '.' then v else v
  else v

/-- `_normalize_default`, source lines 66-67. -/
def normalize_default (value : PyStr) : PyStr := pyStrip (collapseWs value)

/-- A template field as `_normalize_value` and `prepare_pdf_fields` read it:
`type`, `validate.type`, `validate.req`, `id`, `bbox.px`, `name`, `page`,
`style`, `grid` (absent dictionary keys are `none`). -/
structure Field where
  type : Option PyStr
  vtype : Option PyStr
  req : Bool
  id : Option PyStr
  bbox : Option (List Int)
  name : Option PyStr
  page : Int
  style : Option PyStr
  grid : Option Nat
deriving DecidableEq

/-- `(field.get("type") or "").lower()`. -/
def fieldFType (f : Field) : PyStr := pyLower (f.type.getD [])

/-- The email dispatch test of `_normalize_value`. -/
def emailCond (f : Field) : Bool :=
  inStr sEmail (fieldFType f) || f.vtype = some sEmail

/-- The phone dispatch test of `_normalize_value`. -/
def phoneCond (f : Field) : Bool :=
  inStr sPhone (fieldFType f) || f.vtype = some sPhone

/-- The date dispatch test of `_normalize_value`. -/
def dateCond (f : Field) : Bool :=
  (fieldFType f = sDate || fieldFType f = sTextDate) || f.vtype = some sDate

/-- The number/box-grid dispatch test of `_normalize_value`. -/
def numberCond (f : Field) : Bool :=
  (fieldFType f = sNumber || fieldFType f = sBoxGrid) || f.vtype = some sNumber

/-- `_normalize_value`, source lines 70-94.  `.error` marks a Python
exception escaping the function. -/
def normalize_value (f : Field) (value : PyStr) : Except Unit PyStr :=
  if value.isEmpty || (pyStrip value).isEmpty then .ok []
  else if emailCond f then .ok (normalize_email value)
  else if phoneCond f then .ok (normalize_phone value)
  else if dateCond f then normalize_date value
  else if numberCond f then .ok (removeSpaces (translateNep value))
  else .ok (normalize_default value)

example : normalize_value ⟨some sDate, none, false, none, none, none, 1, none, none⟩
    ("2024-10-²".data) = .error () := by decide
example : normalize_value ⟨some sDate, none, false, none, none, none, 1, none, none⟩
    ("1-2-34567".data) = .ok ("34567-02-01".data) := by decide
example : normalize_value ⟨some sDate, none, false, none, none, none, 1, none, none⟩
    ("34567-02-01".data) = .ok ("0001-02-34567".data) := by decide
example : normalize_email ("ABC".data) = "abc".data := by decide
example : normalize_phone ("98-1234-5678".data) = "9812345678".data := by decide

/-! ## `prepare_pdf_fields` (form_filler.py lines 97-162)

Confidences are Python floats taking only values in `[0, 1]`; they are
represented here in integer tenths (`0.8` is `8`).  A Gemini-output entry
is a dictionary whose keys may be absent, hence the `Option` fields; the
whole output maps field ids to entries. -/

/-- One entry of the Gemini extraction record (a Python dict whose
`value` / `confidence` / `notes` keys may be missing). -/
structure GEntry where
  value : Option PyStr
  confidence : Option Int
  notes : Option PyStr
deriving DecidableEq

/-- The extraction record: field id to entry (`None` = key absent). -/
def GMap := PyStr → Option GEntry

/-- `gemini_output.get(fid, {}).get("value", "")`. -/
def getValue (g : GMap) (k : PyStr) : PyStr :=
  match g k with
  | some e => e.value.getD []
  | none => []

/-- `gemini_output.get(fid, {}).get("confidence", 0.8)` (tenths). -/
def getConfD8 (g : GMap) (k : PyStr) : Int :=
  match g k with
  | some e => e.confidence.getD 8
  | none => 8

/-- Dictionary store `gemini_output[k] = e`. -/
def setKey (g : GMap) (k : PyStr) (e : GEntry) : GMap :=
  fun k2 => if k2 = k then some e else g k2

/-- Field ids `"f002"`, `"f006"`, `"f009"`, `"f010"`. -/
def sF002 : PyStr := "f002".data

/-- Field id `"f006"`. -/
def sF006 : PyStr := "f006".data

/-- Field id `"f009"`. -/
def sF009 : PyStr := "f009".data

/-- Field id `"f010"`. -/
def sF010 : PyStr := "f010".data

/-- Note text `"Auto-filled from owner name (f002): "`. -/
def sNotesName : PyStr := "Auto-filled from owner name (f002): ".data

/-- Note text `"Auto-filled from owner address (f006): "`. -/
def sNotesAddr : PyStr := "Auto-filled from owner address (f006): ".data

/-- Lines 107-114 of `prepare_pdf_fields`: auto-fill `f009` (submitter
name) from `f002` (owner name) when `f009` is empty or whitespace-only. -/
def autofill9 (g : GMap) : GMap :=
  if (pyStrip (getValue g sF009)).isEmpty then
    if !(pyStrip (getValue g sF002)).isEmpty then
      setKey g sF009 ⟨some (pyStrip (getValue g sF002)), some (getConfD8 g sF002),
        some (sNotesName ++ pyStrip (getValue g sF002))⟩
    else g
  else g

/-- Lines 116-123 of `prepare_pdf_fields`: auto-fill `f010` (submitter
address) from `f006` (owner address) when `f010` is empty or
whitespace-only. -/
def autofill10 (g : GMap) : GMap :=
  if (pyStrip (getValue g sF010)).isEmpty then
    if !(pyStrip (getValue g sF006)).isEmpty then
      setKey g sF010 ⟨some (pyStrip (getValue g sF006)), some (getConfD8 g sF006),
        some (sNotesAddr ++ pyStrip (getValue g sF006))⟩
    else g
  else g

/-- The in-place auto-fill prologue of `prepare_pdf_fields` (lines 104-123):
`f009` from `f002`, then `f010` from `f006`. -/
def autofill (g : GMap) : GMap := autofill10 (autofill9 g)

/-- A prepared PDF field (the dict appended at lines 149-161). -/
structure Prepared where
  id : PyStr
  name : PyStr
  value : PyStr
  confidence : Int
  bbox_px : List Int
  page : Int
  style : Option PyStr
  grid : Option Nat
deriving DecidableEq

/-- `float(entry.get("confidence", 0.0))` with `max(0.0, min(1.0, ·))`,
in tenths. -/
def clampConf (c : Option Int) : Int := max 0 (min 10 (c.getD 0))

/-- The per-field loop body of `prepare_pdf_fields` (lines 127-161);
`.error` marks a `ValueError` escaping from `_normalize_value`. -/
def prepareLoop (g : GMap) : List (Option Field) → Except Unit (List Prepared)
  | [] => .ok []
  | none :: rest => prepareLoop g rest
  | some f :: rest =>
    match f.id, f.bbox with
    | some fid, some bbox =>
      if bbox.length = 4 then
        let entry := g fid
        let rawValue := (entry.bind (·.value)).getD []
        match normalize_value f rawValue with
        | .error e => .error e
        | .ok normalized =>
          if normalized.isEmpty && !f.req then prepareLoop g rest
          else
            match prepareLoop g rest with
            | .error e => .error e
            | .ok tail =>
              .ok (⟨fid, f.name.getD fid, normalized,
                    clampConf (entry.bind (·.confidence)),
                    bbox, f.page, f.style, f.grid⟩ :: tail)
      else prepareLoop g rest
    | _, _ => prepareLoop g rest

/-- `prepare_pdf_fields` (lines 97-162): the argument dictionary is mutated
in place by `autofill`, so the embedded function returns the updated
dictionary alongside the prepared list. -/
def prepare_pdf_fields (g : GMap) (tpl : List (Option Field)) :
    GMap × Except Unit (List Prepared) :=
  let g2 := autofill g
  (g2, prepareLoop g2 tpl)

/-! ## `app/solana_utils.py`: document proofs and verification -/

/-- A `DocumentProof` row. -/
structure ProofRecord where
  file_hash : PyStr
  transaction_signature : PyStr
  wallet_address : PyStr
  explorer_link : PyStr
deriving DecidableEq

/-- `f"https://explorer.solana.com/tx/{signature}?cluster=devnet"` (the
braces around `signature` are Python interpolation, not literal text). -/
def explorerLink (sig : PyStr) : PyStr :=
  "https://explorer.solana.com/tx/".data ++ sig ++ "?cluster=devnet".data

/-- `save_document_proof` (solana_utils.py lines 187-212).  The database is
a list of rows in insertion order; `filter_by(file_hash=...).first()` is
the first row with an equal hash.  Note: the hash is used verbatim. -/
def save_document_proof (file_hash signature wallet_address : PyStr)
    (db : List ProofRecord) : PyStr × List ProofRecord :=
  let link := explorerLink signature
  match db.find? (fun r => r.file_hash = file_hash) with
  | some existing => (existing.explorer_link, db)
  | none => (link, db ++ [⟨file_hash, signature, wallet_address, link⟩])

/-- `verify_transaction_on_chain` (solana_utils.py lines 228-242): the RPC
call either raises (`.error`) or returns a response whose `value` field may
be `None`; the function returns `response.value is not None` and `False`
on any exception. -/
def verify_transaction_on_chain (rpc : Except Unit (Option Unit)) : Bool :=
  match rpc with
  | .ok v => v.isSome
  | .error _ => false

/-- The verification status enumeration.
Modelled from the spec: `VerificationStatus` is imported from
`app.solana_utils` by the verification page and the hybrid-verification
test but is absent from the sources; the spec gives its three states. -/
inductive VerificationStatus where
  | NOT_FOUND
  | VERIFIED_ON_CHAIN
  | VERIFIED_DB_PRUNED
deriving DecidableEq

/-- Modelled from the spec: `check_verification_status` is imported from
`app.solana_utils` but absent from the sources; per spec §4.6, an absent
proof is `NOT_FOUND`, otherwise the remote ledger is queried for the stored
transaction signature (via `verify_transaction_on_chain`, whose RPC outcome
is the oracle `rpc`), yielding `VERIFIED_ON_CHAIN` on success and
`VERIFIED_DB_PRUNED` on failure. -/
def check_verification_status (rpc : PyStr → Except Unit (Option Unit))
    (proof : Option ProofRecord) : VerificationStatus :=
  match proof with
  | none => .NOT_FOUND
  | some p =>
    if verify_transaction_on_chain (rpc p.transaction_signature) then
      .VERIFIED_ON_CHAIN
    else
      .VERIFIED_DB_PRUNED

/-- Modelled from the spec: `normalize_file_hash` (imported from
`app.solana_utils`, absent from the sources) trims and lowercases a hash,
as §4.6 and the repository's own test
`test_document_proof_lookup_normalizes_hash` require. -/
def normalize_file_hash (h : PyStr) : PyStr := pyLower (pyStrip h)

/-! ## `app/ocr/extractor.py`: the OCR fallback engine

An image is abstracted by what Tesseract does on it: whether the image
file can be read, whether the crop of a field's bounding box is empty,
and the raw text (or `TesseractError`) the recognizer produces for a
field's region. -/

/-- A template field as the OCR loop reads it: id and whether
`bbox.px` is a valid 4-tuple. -/
structure OCRField where
  id : Option PyStr
  bboxOk : Bool
deriving DecidableEq

/-- An input image, abstracted by the recognizer's behaviour on it. -/
structure OCRImage where
  readable : Bool
  regionEmpty : PyStr → Bool
  recog : PyStr → Except Unit PyStr

/-- One extracted OCR entry (`value`, binary `confidence` in tenths,
`source_image` tag added by the multi-image merge). -/
structure OCREntry where
  value : PyStr
  confidence : Int
  source_image : Option Nat
deriving DecidableEq

/-- The per-field loop of `extract_fields_with_ocr` (lines 94-122).  Note
that a field with a usable bounding box always receives an entry, with
confidence `0.8` if the recognized text is nonempty and `0.0` otherwise. -/
def ocrFieldLoop (img : OCRImage) : List (Option OCRField) → Except Unit (List (PyStr × OCREntry))
  | [] => .ok []
  | none :: rest => ocrFieldLoop img rest
  | some f :: rest =>
    match f.id with
    | none => ocrFieldLoop img rest
    | some fid =>
      if !f.bboxOk then ocrFieldLoop img rest
      else if img.regionEmpty fid then ocrFieldLoop img rest
      else
        match img.recog fid with
        | .error e => .error e
        | .ok raw =>
          let text := pyStrip raw
          let conf : Int := if !text.isEmpty then 8 else 0
          match ocrFieldLoop img rest with
          | .error e => .error e
          | .ok tail => .ok ((fid, ⟨text, conf, none⟩) :: tail)

/-- `extract_fields_with_ocr` (lines 82-128): `.error` is `OCRFallbackError`
(unreadable image, recognizer failure, or an empty `extracted` dict). -/
def extract_fields_with_ocr (tpl : List (Option OCRField)) (img : OCRImage) :
    Except Unit (List (PyStr × OCREntry)) :=
  if !img.readable then .error ()
  else
    match ocrFieldLoop img tpl with
    | .error e => .error e
    | .ok entries => if entries.isEmpty then .error () else .ok entries

/-- `field_data['source_image'] = idx + 1` over one extraction. -/
def tagSource (n : Nat) (es : List (PyStr × OCREntry)) : List (PyStr × OCREntry) :=
  es.map (fun p => (p.1, ⟨p.2.value, p.2.confidence, some n⟩))

/-- The collection loop of `extract_fields_from_multiple_images`
(lines 145-156): per-image `OCRFallbackError`s are caught and skipped. -/
def collectOCR (tpl : List (Option OCRField)) : Nat → List OCRImage → List (List (PyStr × OCREntry))
  | _, [] => []
  | idx, img :: rest =>
    match extract_fields_with_ocr tpl img with
    | .error _ => collectOCR tpl (idx + 1) rest
    | .ok es => tagSource (idx + 1) es :: collectOCR tpl (idx + 1) rest

/-- Python dict read `merged.get(fid)`. -/
def lookupE (m : List (PyStr × OCREntry)) (k : PyStr) : Option OCREntry :=
  (m.find? (fun p => p.1 = k)).map (·.2)

/-- Python dict write `merged[fid] = e` (update in place, insert at end). -/
def updE : List (PyStr × OCREntry) → PyStr → OCREntry → List (PyStr × OCREntry)
  | [], k, e => [(k, e)]
  | (k0, e0) :: t, k, e =>
    if k0 = k then (k0, e) :: t else (k0, e0) :: updE t k e

/-- The merge loop (lines 162-175): keep the strictly higher confidence,
ties keep the first seen. -/
def mergeOne (merged ext : List (PyStr × OCREntry)) : List (PyStr × OCREntry) :=
  ext.foldl
    (fun acc p =>
      match lookupE acc p.1 with
      | none => updE acc p.1 p.2
      | some old => if p.2.confidence > old.confidence then updE acc p.1 p.2 else acc)
    merged

/-- `extract_fields_from_multiple_images` (lines 131-178). -/
def extract_fields_from_multiple_images (tpl : List (Option OCRField)) (imgs : List OCRImage) :
    Except Unit (List (PyStr × OCREntry)) :=
  let all := collectOCR tpl 0 imgs
  if all.isEmpty then .error () else .ok (all.foldl mergeOne [])

/-! ## `app/services/extraction_service.py`: the extraction orchestrator

The cache and the two engines are oracles; the filesystem state is the
list of temporary files currently on disk (`tempfile` names are modelled
as `0, 1, ...`, fresh with respect to the initial state in every use
below). -/

/-- Which engine served the request (the `engine_used` return value). -/
inductive Engine where
  | gemini
  | cached_gemini
  | ocr
  | cached_ocr
deriving DecidableEq

/-- The names of the temporary files created for `n` uploaded files. -/
def tempNames (n : Nat) : List Nat := List.range n

/-- `ExtractionService.extract_from_files` (lines 20-112), for a request
with `nFiles` uploaded files.  `cachedGemini`/`cachedOcr` are the cache
probe results, `gem`/`ocr` the engine outcomes (`.error` standing for
`GeminiExtractionError` / `OCRFallbackError`), and `fs` the set of files
on disk; the returned list is the files on disk when the call returns or
raises.  Temporary files are deleted only in the OCR success path
(lines 103-104). -/
def extract_from_files {α : Type} (nFiles : Nat) (forceRefresh : Bool)
    (cachedGemini cachedOcr : Option α) (gem ocr : Except Unit α)
    (fs : List Nat) : Except Unit (α × Engine) × List Nat :=
  match (if forceRefresh then none else cachedGemini) with
  | some c => (.ok (c, .cached_gemini), fs)
  | none =>
    match gem with
    | .ok e => (.ok (e, .gemini), fs)
    | .error _ =>
      match (if forceRefresh then none else cachedOcr) with
      | some c => (.ok (c, .cached_ocr), fs)
      | none =>
        let temps := tempNames nFiles
        let fs1 := fs ++ temps
        match ocr with
        | .ok e => (.ok (e, .ocr), temps.foldl (fun acc p => acc.erase p) fs1)
        | .error _ => (.error (), fs1)

/-! ## `app/gemini/extractor.py`: the vision extraction engine

An attempt is abstracted by its outcome: the parsed payload on success,
or the stringified exception message on failure.  Everything the retry
loop does with a failure is decided by keyword matching on the lowercased
message (lines 384-434), embedded verbatim below. -/

/-- Quota / rate-limit keywords (lines 384-387). -/
def quotaKeywords : List PyStr :=
  ["429".data, "quota".data, "rate limit".data, "rate_limit".data,
   "too many requests".data, "quota exceeded".data, "billing".data, "payment".data]

/-- Authentication / authorization keywords (lines 399-403). -/
def authKeywords : List PyStr :=
  ["401".data, "unauthorized".data, "api key".data, "invalid key".data,
   "permission".data, "403".data, "forbidden".data, "authentication".data,
   "api_key".data, "api key invalid".data, "invalid api key".data,
   "api key not found".data]

/-- Content / request-size / policy keywords (lines 415-419). -/
def contentKeywords : List PyStr :=
  ["400".data, "bad request".data, "invalid".data, "content policy".data,
   "safety".data, "blocked".data, "harmful".data, "policy violation".data,
   "image too large".data, "request too large".data, "payload too large".data]

/-- Retryable transport / timeout / 5xx keywords (lines 431-434). -/
def retryKeywords : List PyStr :=
  ["timeout".data, "ssl".data, "connection".data, "network".data, "eof".data,
   "503".data, "500".data, "502".data, "service unavailable".data,
   "bad gateway".data, "gateway timeout".data]

/-- `any(keyword in error_lower for keyword in kws)`. -/
def matchesAny (kws : List PyStr) (hay : PyStr) : Bool :=
  kws.any (fun k => inStr k hay)

/-- The error classes the retry loop distinguishes. -/
inductive ErrClass where
  | quota
  | auth
  | content
  | retryable
  | other
deriving DecidableEq

/-- The classification of an exception message, in the priority order of
the source (quota at line 389, auth at 405, content at 421, retryable at
431; everything else is `other`). -/
def classifyError (msg : PyStr) : ErrClass :=
  let el := pyLower msg
  if matchesAny quotaKeywords el then .quota
  else if matchesAny authKeywords el then .auth
  else if matchesAny contentKeywords el then .content
  else if matchesAny retryKeywords el then .retryable
  else .other

/-- `timeouts = [30, 60, 90]` (line 276). -/
def timeoutsList : List Nat := [30, 60, 90]

/-- `timeouts[min(attempt, len(timeouts) - 1)]` (line 282). -/
def timeoutFor (attempt : Nat) : Nat := timeoutsList.getD (min attempt 2) 0

/-- Observable events of the retry loop: an API attempt with its timeout,
and a `time.sleep` tagged with the attempt it follows. -/
inductive GemEvent where
  | attempt (idx timeout : Nat)
  | slept (idx secs : Nat)
deriving DecidableEq

/-- The retry loop of `extract_fields_from_images` (lines 279-455), with
`fuel` the remaining iterations of `range(max_retries)`.  A failure whose
class is not retryable, or any failure on the last attempt, aborts with
that class and message; a retryable failure on an earlier attempt sleeps
`2 ** attempt` seconds and retries. -/
def runAttempts {α : Type} (oracle : Nat → Except PyStr α) :
    Nat → Nat → Except (ErrClass × PyStr) α × List GemEvent
  | _, 0 => (.error (.other, []), [])
  | attempt, fuel + 1 =>
    let ev := GemEvent.attempt attempt (timeoutFor attempt)
    match oracle attempt with
    | .ok v => (.ok v, [ev])
    | .error msg =>
      if classifyError msg = ErrClass.retryable ∧ attempt < 2 then
        let r := runAttempts oracle (attempt + 1) fuel
        (r.1, ev :: GemEvent.slept attempt (2 ^ attempt) :: r.2)
      else (.error (classifyError msg, msg), [ev])

/-- `extract_fields_from_images` (lines 212-455), reduced to its retry
loop over abstract attempt outcomes: `max_retries = 3`, starting at
attempt 0. -/
def extract_fields_from_images {α : Type} (oracle : Nat → Except PyStr α) :
    Except (ErrClass × PyStr) α × List GemEvent :=
  runAttempts oracle 0 3

/-- The classification of attempt `i`'s outcome, `none` on success. -/
def outcomeClass {α : Type} (oracle : Nat → Except PyStr α) (i : Nat) : Option ErrClass :=
  match oracle i with
  | .ok _ => none
  | .error m => some (classifyError m)

/-- Attempt `i` occurs in an event trace. -/
def attemptOccurs (i : Nat) (evs : List GemEvent) : Prop :=
  ∃ t, GemEvent.attempt i t ∈ evs

/-! ## Character-level lemmas -/

theorem char_eq_of_toNat {a b : Char} (h : a.toNat = b.toNat) : a = b :=
  Char.ext (UInt32.ext h)

theorem toNat_of_char_eq {a b : Char} (h : a = b) : a.toNat = b.toNat :=
  congrArg Char.toNat h

theorem digitChar_toNat {d : Nat} (h : d < 10) : (digitChar d).toNat = 48 + d := by
  interval_cases d <;> decide

theorem digitChar_ascii {d : Nat} (h : d < 10) : isAsciiDigit (digitChar d) = true := by
  interval_cases d <;> decide

theorem charVal_digitChar {d : Nat} (h : d < 10) : charVal (digitChar d) = d := by
  interval_cases d <;> decide

theorem isAsciiDigit_iff {c : Char} : isAsciiDigit c = true ↔ 48 ≤ c.toNat ∧ c.toNat ≤ 57 := by
  simp [isAsciiDigit]

theorem isNepaliDigit_iff {c : Char} : isNepaliDigit c = true ↔ 2406 ≤ c.toNat ∧ c.toNat ≤ 2415 := by
  simp [isNepaliDigit]

theorem isWs_iff {c : Char} : isWs c = true ↔
    c.toNat = 32 ∨ c.toNat = 9 ∨ c.toNat = 10 ∨ c.toNat = 13 ∨ c.toNat = 11 ∨ c.toNat = 12 := by
  simp [isWs]
  tauto

theorem ascii_not_ws {c : Char} (h : isAsciiDigit c = true) : isWs c = false := by
  rw [isAsciiDigit_iff] at h
  rw [Bool.eq_false_iff]
  intro hw
  rw [isWs_iff] at hw
  omega

theorem ascii_not_nepali {c : Char} (h : isAsciiDigit c = true) : isNepaliDigit c = false := by
  rw [isAsciiDigit_iff] at h
  rw [Bool.eq_false_iff]
  intro hw
  rw [isNepaliDigit_iff] at hw
  omega

theorem ascii_decimal {c : Char} (h : isAsciiDigit c = true) : decimalChar c = true := by
  simp [decimalChar, h]

theorem ascii_pyDigit {c : Char} (h : isAsciiDigit c = true) : pyDigitChar c = true := by
  simp [pyDigitChar, h]

theorem ascii_toNat_ne {c : Char} (h : isAsciiDigit c = true) {d : Char}
    (hd : ¬(48 ≤ d.toNat ∧ d.toNat ≤ 57)) : c ≠ d := by
  rw [isAsciiDigit_iff] at h
  intro he
  subst he
  omega

theorem translateCh_not_nepali (c : Char) : isNepaliDigit (translateCh c) = false := by
  unfold translateCh
  by_cases hn : isNepaliDigit c = true
  · rw [if_pos hn]
    apply ascii_not_nepali
    apply digitChar_ascii
    rw [isNepaliDigit_iff] at hn
    omega
  · rw [if_neg hn]
    exact Bool.eq_false_iff.mpr hn

theorem translateCh_noop {c : Char} (h : isNepaliDigit c = false) : translateCh c = c := by
  unfold translateCh
  rw [if_neg]
  simp [h]

theorem translateCh_ascii {c : Char} (h : isAsciiDigit c = true) : translateCh c = c :=
  translateCh_noop (ascii_not_nepali h)

theorem translateCh_ws (c : Char) : isWs (translateCh c) = isWs c := by
  unfold translateCh
  by_cases hn : isNepaliDigit c = true
  · rw [if_pos hn]
    rw [isNepaliDigit_iff] at hn
    have h1 : isWs (digitChar (c.toNat - 2406)) = false :=
      ascii_not_ws (digitChar_ascii (by omega))
    have h2 : isWs c = false := by
      rw [Bool.eq_false_iff]
      intro hw
      rw [isWs_iff] at hw
      omega
    rw [h1, h2]
  · rw [if_neg hn]

theorem translateCh_decimal (c : Char) : decimalChar (translateCh c) = decimalChar c := by
  unfold translateCh
  by_cases hn : isNepaliDigit c = true
  · rw [if_pos hn]
    have h1 : isAsciiDigit (digitChar (c.toNat - 2406)) = true := by
      apply digitChar_ascii
      rw [isNepaliDigit_iff] at hn
      omega
    simp [decimalChar, h1, hn]
  · rw [if_neg hn]

theorem toLower_toNat (c : Char) : (Char.toLower c).toNat =
    if 65 ≤ c.toNat ∧ c.toNat ≤ 90 then c.toNat + 32 else c.toNat := by
  have hofAux : ∀ (n : Nat) (h : Nat.isValidChar n), (Char.ofNatAux n h).toNat = n := by
    intro n h
    simp [Char.ofNatAux, UInt32.toNat, Char.toNat]
  by_cases h : 65 ≤ c.toNat ∧ c.toNat ≤ 90
  · have hv : Nat.isValidChar (c.toNat + 32) := Or.inl (by omega)
    rw [if_pos h]
    simp only [Char.toLower, ge_iff_le, h, and_self, if_true]
    simp only [Char.ofNat, hv, dite_true]
    exact hofAux _ hv
  · rw [if_neg h]
    simp only [Char.toLower, ge_iff_le]
    rw [if_neg h]

theorem toLower_idem (c : Char) : Char.toLower (Char.toLower c) = Char.toLower c := by
  apply char_eq_of_toNat
  rw [toLower_toNat, toLower_toNat]
  split_ifs <;> omega

theorem toLower_of_not_upper {c : Char} (h : ¬(65 ≤ c.toNat ∧ c.toNat ≤ 90)) :
    Char.toLower c = c := by
  apply char_eq_of_toNat
  rw [toLower_toNat, if_neg h]

theorem isWs_toLower (c : Char) : isWs (Char.toLower c) = isWs c := by
  by_cases h : 65 ≤ c.toNat ∧ c.toNat ≤ 90
  · have ht : (Char.toLower c).toNat = c.toNat + 32 := by rw [toLower_toNat, if_pos h]
    have h1 : isWs (Char.toLower c) = false := by
      rw [Bool.eq_false_iff]
      intro hw
      rw [isWs_iff] at hw
      omega
    have h2 : isWs c = false := by
      rw [Bool.eq_false_iff]
      intro hw
      rw [isWs_iff] at hw
      omega
    rw [h1, h2]
  · rw [toLower_of_not_upper h]

/-! ## String-level lemmas: strip, lower, collapse, translate -/

theorem map_noop {f : Char → Char} {l : PyStr} (h : ∀ c ∈ l, f c = c) : l.map f = l := by
  induction l with
  | nil => rfl
  | cons c t ih =>
    simp only [List.map_cons, List.cons.injEq]
    exact ⟨h c (List.mem_cons_self c t), ih fun d hd => h d (List.mem_cons_of_mem c hd)⟩

theorem mem_dropWhile {p : Char → Bool} {l : PyStr} {c : Char} (h : c ∈ l.dropWhile p) :
    c ∈ l :=
  (List.dropWhile_sublist p).mem h

theorem dropWhile_noop {p : Char → Bool} {l : PyStr}
    (h : ∀ c t, l = c :: t → p c = false) : l.dropWhile p = l := by
  cases l with
  | nil => rfl
  | cons c t => simp [List.dropWhile, h c t rfl]

theorem dropWhile_mem_of_not {p : Char → Bool} {l : PyStr} {c : Char}
    (hc : p c = false) (h : c ∈ l) : c ∈ l.dropWhile p := by
  induction l with
  | nil => cases h
  | cons d t ih =>
    by_cases hd : p d = true
    · simp only [List.dropWhile, hd]
      rcases List.mem_cons.mp h with he | ht
      · subst he
        rw [hc] at hd
        cases hd
      · exact ih ht
    · simp only [List.dropWhile, Bool.not_eq_true] at hd
      simp only [List.dropWhile, hd]
      exact h

theorem dropWhile_head_not {p : Char → Bool} {l : PyStr} {c : Char} {t : PyStr}
    (h : l.dropWhile p = c :: t) : p c = false := by
  induction l with
  | nil => cases h
  | cons d r ih =>
    by_cases hd : p d = true
    · simp only [List.dropWhile, hd] at h
      exact ih h
    · simp only [List.dropWhile, Bool.not_eq_true] at hd
      simp only [List.dropWhile, hd] at h
      cases h
      exact hd

theorem dropEndWs_cons (d : Char) (t : PyStr) :
    dropEndWs (d :: t) =
      if dropEndWs t = [] then (if isWs d then [] else [d]) else d :: dropEndWs t := rfl

theorem mem_dropEndWs {l : PyStr} {c : Char} (h : c ∈ dropEndWs l) : c ∈ l := by
  induction l with
  | nil => cases h
  | cons d t ih =>
    rw [dropEndWs_cons] at h
    by_cases hr : dropEndWs t = []
    · rw [if_pos hr] at h
      by_cases hd : isWs d = true
      · simp [hd] at h
      · simp only [Bool.not_eq_true] at hd
        simp only [hd, Bool.false_eq_true, if_false, List.mem_singleton] at h
        exact h ▸ List.mem_cons_self _ _
    · rw [if_neg hr] at h
      rcases List.mem_cons.mp h with he | ht
      · exact he ▸ List.mem_cons_self _ _
      · exact List.mem_cons_of_mem d (ih ht)

theorem dropEndWs_mem_of_not {l : PyStr} {c : Char}
    (hc : isWs c = false) (h : c ∈ l) : c ∈ dropEndWs l := by
  induction l with
  | nil => cases h
  | cons d t ih =>
    rw [dropEndWs_cons]
    by_cases hr : dropEndWs t = []
    · rw [if_pos hr]
      rcases List.mem_cons.mp h with he | ht
      · subst he
        simp [hc]
      · exact absurd (hr ▸ ih ht) (List.not_mem_nil c)
    · rw [if_neg hr]
      rcases List.mem_cons.mp h with he | ht
      · exact he ▸ List.mem_cons_self _ _
      · exact List.mem_cons_of_mem d (ih ht)

theorem dropEndWs_head? {l : PyStr} (h : dropEndWs l ≠ []) :
    (dropEndWs l).head? = l.head? := by
  cases l with
  | nil => rfl
  | cons d t =>
    rw [dropEndWs_cons] at h ⊢
    by_cases hr : dropEndWs t = []
    · rw [if_pos hr] at h ⊢
      by_cases hd : isWs d = true
      · rw [if_pos hd] at h
        exact absurd rfl h
      · rw [if_neg hd]
        rfl
    · rw [if_neg hr]
      rfl

theorem dropEndWs_idem (l : PyStr) : dropEndWs (dropEndWs l) = dropEndWs l := by
  induction l with
  | nil => rfl
  | cons d t ih =>
    rw [dropEndWs_cons]
    by_cases hr : dropEndWs t = []
    · rw [if_pos hr]
      by_cases hd : isWs d = true
      · rw [if_pos hd]
        rfl
      · rw [if_neg hd, dropEndWs_cons]
        simp [hd, dropEndWs]
    · rw [if_neg hr, dropEndWs_cons, ih, if_neg hr]

theorem dropEndWs_noop {l : PyStr} (h : ∀ c ∈ l, isWs c = false) : dropEndWs l = l := by
  induction l with
  | nil => rfl
  | cons d t ih =>
    rw [dropEndWs_cons]
    rw [ih fun c hc => h c (List.mem_cons_of_mem d hc)]
    by_cases ht : t = []
    · subst ht
      simp [h d (List.mem_cons_self d [])]
    · rw [if_neg ht]

theorem pyStrip_mem_of_not {l : PyStr} {c : Char}
    (hc : isWs c = false) (h : c ∈ l) : c ∈ pyStrip l :=
  dropEndWs_mem_of_not hc (dropWhile_mem_of_not hc h)

theorem pyStrip_mem {l : PyStr} {c : Char} (h : c ∈ pyStrip l) : c ∈ l :=
  mem_dropWhile (mem_dropEndWs h)

theorem pyStrip_noop {l : PyStr} (h : ∀ c ∈ l, isWs c = false) : pyStrip l = l := by
  unfold pyStrip
  rw [dropWhile_noop fun c t hct => h c (by rw [hct]; exact List.mem_cons_self c t)]
  exact dropEndWs_noop h

theorem pyStrip_idem (l : PyStr) : pyStrip (pyStrip l) = pyStrip l := by
  unfold pyStrip
  rcases hs : dropEndWs (l.dropWhile isWs) with _ | ⟨c, t⟩
  · rfl
  · have hhead : (dropEndWs (l.dropWhile isWs)).head? = (l.dropWhile isWs).head? :=
      dropEndWs_head? (by rw [hs]; exact List.cons_ne_nil c t)
    have hcnotws : isWs c = false := by
      rw [hs] at hhead
      rcases hd : l.dropWhile isWs with _ | ⟨d, dt⟩
      · rw [hd] at hhead
        cases hhead
      · rw [hd] at hhead
        simp only [List.head?_cons, Option.some_inj] at hhead
        subst hhead
        exact dropWhile_head_not hd
    rw [dropWhile_noop]
    · rw [← hs, dropEndWs_idem, hs]
    · intro e et het
      injection het with h1 h2
      exact h1 ▸ hcnotws

theorem pyStrip_nil_of_allWs {l : PyStr} (h : ∀ c ∈ l, isWs c = true) : pyStrip l = [] := by
  unfold pyStrip
  have hd : l.dropWhile isWs = [] := by
    induction l with
    | nil => rfl
    | cons c t ih =>
      simp only [List.dropWhile, h c (List.mem_cons_self c t)]
      exact ih fun e he => h e (List.mem_cons_of_mem c he)
  rw [hd]
  rfl

theorem pyStrip_ne_nil {l : PyStr} {c : Char} (hc : isWs c = false) (h : c ∈ l) :
    pyStrip l ≠ [] := by
  intro hnil
  have := pyStrip_mem_of_not hc h
  rw [hnil] at this
  cases this

theorem dropEndWs_map {f : Char → Char} (hf : ∀ c, isWs (f c) = isWs c) (l : PyStr) :
    dropEndWs (l.map f) = (dropEndWs l).map f := by
  induction l with
  | nil => rfl
  | cons d t ih =>
    simp only [List.map_cons]
    rw [dropEndWs_cons, dropEndWs_cons]
    rw [ih]
    by_cases hr : dropEndWs t = []
    · rw [hr]
      simp only [List.map_nil, if_pos rfl, hf d]
      by_cases hd : isWs d = true
      · simp [hd]
      · simp only [Bool.not_eq_true] at hd
        simp [hd]
    · rw [if_neg hr, if_neg (by simp [hr]), List.map_cons]

theorem pyStrip_map {f : Char → Char} (hf : ∀ c, isWs (f c) = isWs c) (l : PyStr) :
    pyStrip (l.map f) = (pyStrip l).map f := by
  unfold pyStrip
  rw [List.dropWhile_map]
  have hps : (isWs ∘ f) = isWs := funext hf
  rw [hps, dropEndWs_map hf]

theorem pyLower_pyStrip (l : PyStr) : pyStrip (pyLower l) = pyLower (pyStrip l) :=
  pyStrip_map isWs_toLower l

theorem pyLower_idem (l : PyStr) : pyLower (pyLower l) = pyLower l := by
  unfold pyLower
  rw [List.map_map]
  exact List.map_congr_left fun c _ => toLower_idem c

/-! ## Whitespace-collapse lemmas (for `_normalize_default`) -/

/-- The head of the string, if any, is not whitespace. -/
def headNotWs : PyStr → Bool
  | [] => true
  | c :: _ => !isWs c

/-- Canonical whitespace shape: every whitespace character is a single
`' '` followed by a non-whitespace character (or the end). -/
def okStr : PyStr → Bool
  | [] => true
  | c :: t => (!isWs c || (decide (c = ' ') && headNotWs t)) && okStr t

theorem headNotWs_cons_false {c : Char} {t : PyStr} (h : isWs c = true) :
    headNotWs (c :: t) = false := by
  simp [headNotWs, h]

theorem headNotWs_elim {l : PyStr} (h : headNotWs l = true) :
    ∀ c t, l = c :: t → isWs c = false := by
  intro c t hl
  subst hl
  simpa [headNotWs] using h

theorem headNotWs_of_head? {l m : PyStr} (he : l.head? = m.head?)
    (h : headNotWs m = true) : headNotWs l = true := by
  cases l with
  | nil => rfl
  | cons c t =>
    cases m with
    | nil => cases he
    | cons d s =>
      simp only [List.head?_cons, Option.some_inj] at he
      subst he
      exact h

theorem collapseGo_headNotWs (l : PyStr) : headNotWs (collapseGo true l) = true := by
  induction l with
  | nil => rfl
  | cons c t ih =>
    by_cases hw : isWs c = true
    · simpa [collapseGo, hw] using ih
    · simp only [Bool.not_eq_true] at hw
      simp [collapseGo, hw, headNotWs]

theorem okStr_collapseGo (l : PyStr) : ∀ b, okStr (collapseGo b l) = true := by
  induction l with
  | nil => intro b; rfl
  | cons c t ih =>
    intro b
    by_cases hw : isWs c = true
    · cases b with
      | true => simpa [collapseGo, hw] using ih true
      | false =>
        simp only [collapseGo, hw, if_true, Bool.true_eq]
        simp only [okStr, Bool.and_eq_true]
        refine ⟨?_, ih true⟩
        simp [collapseGo_headNotWs t]
    · simp only [Bool.not_eq_true] at hw
      simp only [collapseGo, hw, Bool.false_eq_true, if_false]
      simp only [okStr, Bool.and_eq_true]
      exact ⟨by simp [hw], ih false⟩

theorem collapseGo_of_okStr {l : PyStr} (h : okStr l = true) :
    collapseGo false l = l ∧ (headNotWs l = true → collapseGo true l = l) := by
  induction l with
  | nil => exact ⟨rfl, fun _ => rfl⟩
  | cons c t ih =>
    simp only [okStr, Bool.and_eq_true, Bool.or_eq_true] at h
    obtain ⟨hc1, hok⟩ := h
    obtain ⟨hf, hft⟩ := ih hok
    by_cases hw : isWs c = true
    · have hc2 : c = ' ' ∧ headNotWs t = true := by
        rcases hc1 with hx | hx
        · rw [hw] at hx
          cases hx
        · exact ⟨of_decide_eq_true hx.1, hx.2⟩
      have htrue : collapseGo true t = t := by
        cases t with
        | nil => rfl
        | cons d s =>
          have hd : isWs d = false := headNotWs_elim hc2.2 d s rfl
          simp only [collapseGo, hd, Bool.false_eq_true, if_false]
          simp only [collapseGo, hd, Bool.false_eq_true, if_false] at hf
          exact hf
      constructor
      · have hcc : collapseGo false (c :: t) = ' ' :: collapseGo true t := by
          simp only [collapseGo, hw, if_true, Bool.false_eq_true, if_false]
        rw [hcc, htrue, hc2.1]
      · intro hh
        rw [headNotWs_cons_false hw] at hh
        cases hh
    · simp only [Bool.not_eq_true] at hw
      constructor
      · simp only [collapseGo, hw, Bool.false_eq_true, if_false, hf]
      · intro _
        simp only [collapseGo, hw, Bool.false_eq_true, if_false, hf]

theorem okStr_dropWhile {l : PyStr} (h : okStr l = true) :
    okStr (l.dropWhile isWs) = true := by
  cases l with
  | nil => exact h
  | cons c t =>
    simp only [okStr, Bool.and_eq_true, Bool.or_eq_true] at h
    obtain ⟨hc1, hok⟩ := h
    by_cases hw : isWs c = true
    · have hc2 : c = ' ' ∧ headNotWs t = true := by
        rcases hc1 with hx | hx
        · rw [hw] at hx
          cases hx
        · exact ⟨of_decide_eq_true hx.1, hx.2⟩
      simp only [List.dropWhile, hw]
      rw [dropWhile_noop fun d s hds => headNotWs_elim hc2.2 d s hds]
      exact hok
    · simp only [Bool.not_eq_true] at hw
      simp only [List.dropWhile, hw]
      simp only [okStr, Bool.and_eq_true, Bool.or_eq_true]
      exact ⟨Or.inl (by simp [hw]), hok⟩

theorem okStr_dropEndWs {l : PyStr} (h : okStr l = true) :
    okStr (dropEndWs l) = true := by
  induction l with
  | nil => exact h
  | cons c t ih =>
    simp only [okStr, Bool.and_eq_true, Bool.or_eq_true] at h
    obtain ⟨hc1, hok⟩ := h
    rw [dropEndWs_cons]
    by_cases hr : dropEndWs t = []
    · rw [if_pos hr]
      by_cases hw : isWs c = true
      · simp [hw, okStr]
      · simp only [Bool.not_eq_true] at hw
        simp [hw, okStr]
    · rw [if_neg hr]
      simp only [okStr, Bool.and_eq_true, Bool.or_eq_true]
      refine ⟨?_, ih hok⟩
      by_cases hw : isWs c = true
      · have hc2 : c = ' ' ∧ headNotWs t = true := by
          rcases hc1 with hx | hx
          · rw [hw] at hx
            cases hx
          · exact ⟨of_decide_eq_true hx.1, hx.2⟩
        right
        exact ⟨by simp [hc2.1], headNotWs_of_head? (dropEndWs_head? hr) hc2.2⟩
      · simp only [Bool.not_eq_true] at hw
        exact Or.inl (by simp [hw])

theorem okStr_pyStrip {l : PyStr} (h : okStr l = true) : okStr (pyStrip l) = true :=
  okStr_dropEndWs (okStr_dropWhile h)

theorem collapseWs_pyStrip_fix {l : PyStr} (h : okStr l = true) :
    collapseWs (pyStrip l) = pyStrip l :=
  (collapseGo_of_okStr (okStr_pyStrip h)).1

theorem okStr_collapseWs (l : PyStr) : okStr (collapseWs l) = true :=
  okStr_collapseGo l false

theorem normalize_default_idem (l : PyStr) :
    normalize_default (normalize_default l) = normalize_default l := by
  unfold normalize_default
  rw [collapseWs_pyStrip_fix (okStr_collapseWs l), pyStrip_idem]

theorem pyStrip_normalize_default (l : PyStr) :
    pyStrip (normalize_default l) = normalize_default l := by
  unfold normalize_default
  rw [pyStrip_idem]

theorem mem_collapseGo {c : Char} (hc : isWs c = false) {l : PyStr} (h : c ∈ l) :
    ∀ b, c ∈ collapseGo b l := by
  induction l with
  | nil => cases h
  | cons d t ih =>
    intro b
    by_cases hd : isWs d = true
    · have hct : c ∈ t := by
        rcases List.mem_cons.mp h with he | ht
        · rw [he, hd] at hc
          cases hc
        · exact ht
      cases b with
      | true => simpa [collapseGo, hd] using ih hct true
      | false =>
        simp only [collapseGo, hd, if_true, Bool.true_eq]
        exact List.mem_cons_of_mem ' ' (ih hct true)
    · simp only [Bool.not_eq_true] at hd
      simp only [collapseGo, hd, Bool.false_eq_true, if_false]
      rcases List.mem_cons.mp h with he | ht
      · exact he ▸ List.mem_cons_self _ _
      · exact List.mem_cons_of_mem d (ih ht false)

theorem normalize_default_ne_nil {l : PyStr} {c : Char}
    (hc : isWs c = false) (h : c ∈ l) : normalize_default l ≠ [] := by
  unfold normalize_default
  exact pyStrip_ne_nil hc (mem_collapseGo hc h false)


/-! ## Decimal rendering and parsing lemmas -/

theorem natCharsAux_ascii : ∀ fuel n, n < fuel →
    ∀ c ∈ natCharsAux fuel n, isAsciiDigit c = true := by
  intro fuel
  induction fuel with
  | zero => intro n hn; omega
  | succ f ih =>
    intro n hn c hc
    by_cases h10 : n < 10
    · simp only [natCharsAux, h10, if_true, List.mem_singleton] at hc
      exact hc ▸ digitChar_ascii h10
    · simp only [natCharsAux, h10, if_false] at hc
      rcases List.mem_append.mp hc with hl | hr
      · have hdiv : n / 10 < n := Nat.div_lt_self (by omega) (by norm_num)
        exact ih (n / 10) (by omega) c hl
      · rw [List.mem_singleton] at hr
        exact hr ▸ digitChar_ascii (Nat.mod_lt n (by norm_num))

theorem listVal_append_digit (l : PyStr) (c : Char) :
    listVal (l ++ [c]) = 10 * listVal l + charVal c := by
  unfold listVal
  rw [List.foldl_append]
  rfl

theorem natCharsAux_val : ∀ fuel n, n < fuel → listVal (natCharsAux fuel n) = n := by
  intro fuel
  induction fuel with
  | zero => intro n hn; omega
  | succ f ih =>
    intro n hn
    by_cases h10 : n < 10
    · simp only [natCharsAux, h10, if_true]
      simp [listVal, charVal_digitChar h10]
    · simp only [natCharsAux, h10, if_false]
      have hdiv : n / 10 < n := Nat.div_lt_self (by omega) (by norm_num)
      rw [listVal_append_digit, ih (n / 10) (by omega),
        charVal_digitChar (Nat.mod_lt n (by norm_num))]
      omega

theorem natCharsAux_len : ∀ fuel n w, n < fuel → 1 ≤ w → n < 10 ^ w →
    (natCharsAux fuel n).length ≤ w := by
  intro fuel
  induction fuel with
  | zero => intro n w hn; omega
  | succ f ih =>
    intro n w hn hw hpow
    by_cases h10 : n < 10
    · simp only [natCharsAux, h10, if_true, List.length_singleton]
      omega
    · simp only [natCharsAux, h10, if_false, List.length_append, List.length_singleton]
      have hw2 : 2 ≤ w := by
        by_contra hcon
        have hwe : w = 1 := by omega
        subst hwe
        simp at hpow
        omega
      have hdiv : n / 10 < n := Nat.div_lt_self (by omega) (by norm_num)
      have hpow2 : n / 10 < 10 ^ (w - 1) := by
        rw [Nat.div_lt_iff_lt_mul (by norm_num : 0 < 10)]
        have hph : (10 : Nat) ^ w = 10 ^ (w - 1) * 10 := by
          rw [← pow_succ]
          congr 1
          omega
        omega
      have := ih (n / 10) (w - 1) (by omega) (by omega) hpow2
      omega

theorem natChars_ascii {n : Nat} : ∀ c ∈ natChars n, isAsciiDigit c = true :=
  natCharsAux_ascii (n + 1) n (Nat.lt_succ_self n)

theorem natChars_val (n : Nat) : listVal (natChars n) = n :=
  natCharsAux_val (n + 1) n (Nat.lt_succ_self n)

theorem natChars_len {n w : Nat} (hw : 1 ≤ w) (hpow : n < 10 ^ w) :
    (natChars n).length ≤ w :=
  natCharsAux_len (n + 1) n w (Nat.lt_succ_self n) hw hpow

theorem natChars_ne_nil (n : Nat) : natChars n ≠ [] := by
  unfold natChars natCharsAux
  by_cases h10 : n < 10
  · simp [h10]
  · simp [h10]

theorem fmt0_ascii {w n : Nat} : ∀ c ∈ fmt0 w n, isAsciiDigit c = true := by
  intro c hc
  unfold fmt0 padZeros at hc
  rcases List.mem_append.mp hc with hl | hr
  · have := List.eq_of_mem_replicate hl
    subst this
    decide
  · exact natChars_ascii c hr

theorem listVal_replicate_zero (k : Nat) :
    List.foldl (fun a c => 10 * a + charVal c) 0 (List.replicate k '0') = 0 := by
  induction k with
  | zero => rfl
  | succ m ih => simpa [List.replicate_succ, List.foldl_cons] using ih

theorem fmt0_val (w n : Nat) : listVal (fmt0 w n) = n := by
  unfold fmt0 padZeros listVal
  rw [List.foldl_append, listVal_replicate_zero]
  exact natChars_val n

theorem fmt0_ne_nil (w n : Nat) : fmt0 w n ≠ [] := by
  unfold fmt0 padZeros
  intro h
  rcases List.append_eq_nil.mp h with ⟨h1, h2⟩
  exact natChars_ne_nil n h2

theorem pyIntNat_fmt0 (w n : Nat) : pyIntNat (fmt0 w n) = some n := by
  unfold pyIntNat
  rw [if_pos, fmt0_val]
  rw [Bool.and_eq_true, List.all_eq_true]
  constructor
  · simp [List.isEmpty_iff, fmt0_ne_nil w n]
  · exact fun c hc => ascii_decimal (fmt0_ascii c hc)

theorem pyIsDigit_fmt0 (w n : Nat) : pyIsDigit (fmt0 w n) = true := by
  unfold pyIsDigit
  rw [Bool.and_eq_true, List.all_eq_true]
  constructor
  · simp [List.isEmpty_iff, fmt0_ne_nil w n]
  · exact fun c hc => ascii_pyDigit (fmt0_ascii c hc)

theorem fmt0_len {w n : Nat} (hw : 1 ≤ w) (hpow : n < 10 ^ w) :
    (fmt0 w n).length = w := by
  unfold fmt0 padZeros
  rw [List.length_append, List.length_replicate]
  have := natChars_len hw hpow
  omega

/-! ## Split lemmas -/

theorem splitChar_no_sep {sep : Char} {l : PyStr} (h : ∀ c ∈ l, c ≠ sep) :
    splitChar sep l = [l] := by
  induction l with
  | nil => rfl
  | cons c t ih =>
    have hc : ¬(c = sep) := h c (List.mem_cons_self c t)
    simp only [splitChar, hc, if_false]
    rw [ih fun d hd => h d (List.mem_cons_of_mem c hd)]

theorem splitChar_append_sep {sep : Char} {l1 : PyStr} (l2 : PyStr)
    (h : ∀ c ∈ l1, c ≠ sep) :
    splitChar sep (l1 ++ sep :: l2) = l1 :: splitChar sep l2 := by
  induction l1 with
  | nil =>
    simp [splitChar]
  | cons c t ih =>
    have hc : ¬(c = sep) := h c (List.mem_cons_self c t)
    simp only [List.cons_append, splitChar, hc, if_false, List.append_eq]
    rw [ih fun d hd => h d (List.mem_cons_of_mem c hd)]

/-! ## Normalizer-level lemmas: email, translate, phone, number -/

theorem normalize_email_eq (v : PyStr) : normalize_email v = pyLower (pyStrip v) := by
  unfold normalize_email
  dsimp only
  split_ifs <;> rfl

theorem normalize_email_idem (v : PyStr) :
    normalize_email (normalize_email v) = normalize_email v := by
  rw [normalize_email_eq, normalize_email_eq, pyLower_pyStrip, pyStrip_idem, pyLower_idem]

theorem translateNep_not_nepali {l : PyStr} : ∀ c ∈ translateNep l, isNepaliDigit c = false := by
  intro c hc
  rcases List.mem_map.mp hc with ⟨d, _, hd⟩
  exact hd ▸ translateCh_not_nepali d

theorem translateNep_noop {l : PyStr} (h : ∀ c ∈ l, isNepaliDigit c = false) :
    translateNep l = l :=
  map_noop fun c hc => translateCh_noop (h c hc)

theorem translateNep_idem (l : PyStr) : translateNep (translateNep l) = translateNep l :=
  translateNep_noop translateNep_not_nepali

theorem not_space_of_not_ws {c : Char} (h : isWs c = false) : (decide (c = ' ')) = false := by
  by_cases hc : c = ' '
  · subst hc
    cases h
  · simp [hc]

theorem mem_lastN {k : Nat} {l : PyStr} {c : Char} (h : c ∈ lastN k l) : c ∈ l :=
  (List.drop_sublist _ _).mem h

theorem phoneDigits_ascii {v : PyStr} : ∀ c ∈ phoneDigits v, isAsciiDigit c = true := by
  intro c hc
  rw [phoneDigits, List.mem_filter] at hc
  obtain ⟨hmem, hdec⟩ := hc
  have hnep := translateNep_not_nepali c hmem
  rw [decimalChar, Bool.or_eq_true] at hdec
  rcases hdec with ha | hn
  · exact ha
  · rw [hn] at hnep
    cases hnep

theorem phoneReduce_ascii {v : PyStr} : ∀ c ∈ phoneReduce v, isAsciiDigit c = true := by
  intro c hc
  unfold phoneReduce at hc
  dsimp only at hc
  split_ifs at hc
  · exact phoneDigits_ascii c (mem_lastN (mem_lastN hc))
  · exact phoneDigits_ascii c (mem_lastN hc)
  · exact phoneDigits_ascii c (mem_lastN hc)
  · exact phoneDigits_ascii c hc

theorem phoneDigits_of_ascii {v : PyStr} (h : ∀ c ∈ v, isAsciiDigit c = true) :
    phoneDigits v = v := by
  unfold phoneDigits
  rw [translateNep_noop fun c hc => ascii_not_nepali (h c hc)]
  exact List.filter_eq_self.mpr fun c hc => ascii_decimal (h c hc)

theorem phoneValid_length {d : PyStr} (h : phoneValid d = true) : d.length = 10 := by
  unfold phoneValid at h
  rw [Bool.and_eq_true] at h
  exact of_decide_eq_true h.1

theorem phoneReduce_of_valid {v : PyStr} (hv : ∀ c ∈ v, isAsciiDigit c = true)
    (hlen : v.length = 10) : phoneReduce v = v := by
  unfold phoneReduce
  rw [phoneDigits_of_ascii hv]
  dsimp only
  have hd : decide (v.length > 10) = false := by
    rw [hlen]
    decide
  simp only [hd, Bool.and_false, Bool.false_eq_true, if_false]
  rw [if_neg (by omega : ¬(List.length v > 10))]

theorem normalize_phone_idem (v : PyStr) :
    normalize_phone (normalize_phone v) = normalize_phone v := by
  by_cases h : phoneValid (phoneReduce v) = true
  · have h1 : normalize_phone v = phoneReduce v := by
      unfold normalize_phone
      rw [if_pos h]
    have hred : phoneReduce (phoneReduce v) = phoneReduce v :=
      phoneReduce_of_valid (fun c hc => phoneReduce_ascii c hc) (phoneValid_length h)
    rw [h1]
    unfold normalize_phone
    rw [hred, if_pos h]
  · have h1 : normalize_phone v = v := by
      unfold normalize_phone
      rw [if_neg h]
    rw [h1]
    exact h1

theorem normalize_number_idem (v : PyStr) :
    removeSpaces (translateNep (removeSpaces (translateNep v))) =
      removeSpaces (translateNep v) := by
  have hnep : ∀ c ∈ removeSpaces (translateNep v), isNepaliDigit c = false := by
    intro c hc
    rw [removeSpaces, List.mem_filter] at hc
    exact translateNep_not_nepali c hc.1
  have hsp : ∀ c ∈ removeSpaces (translateNep v), (!(decide (c = ' '))) = true := by
    intro c hc
    rw [removeSpaces, List.mem_filter] at hc
    exact hc.2
  rw [translateNep_noop hnep]
  exact List.filter_eq_self.mpr hsp

/-! ## Date-normalizer lemmas -/

theorem filter_map_comm {f : Char → Char} {p : Char → Bool} (l : PyStr) :
    (l.map f).filter p = (l.filter (fun c => p (f c))).map f := by
  induction l with
  | nil => rfl
  | cons c t ih =>
    by_cases hc : p (f c) = true
    · simp [List.filter_cons, hc, ih]
    · simp only [Bool.not_eq_true] at hc
      simp [List.filter_cons, hc, ih]

theorem removeWs_map {F : Char → Char} (hF : ∀ c, isWs (F c) = isWs c) (l : PyStr) :
    removeWs (l.map F) = (removeWs l).map F := by
  unfold removeWs
  rw [filter_map_comm]
  have hfun : (fun c => !isWs (F c)) = fun c => !isWs c := funext fun c => by rw [hF]
  rw [hfun]

theorem removeWs_dropWhile (l : PyStr) : removeWs (l.dropWhile isWs) = removeWs l := by
  induction l with
  | nil => rfl
  | cons c t ih =>
    by_cases hw : isWs c = true
    · simp only [List.dropWhile, hw, if_true]
      rw [ih]
      simp [removeWs, List.filter_cons, hw]
    · simp only [Bool.not_eq_true] at hw
      simp only [List.dropWhile, hw, Bool.false_eq_true, if_false]

theorem removeWs_dropEndWs (l : PyStr) : removeWs (dropEndWs l) = removeWs l := by
  induction l with
  | nil => rfl
  | cons c t ih =>
    rw [dropEndWs_cons]
    by_cases hr : dropEndWs t = []
    · have ht : removeWs t = [] := by
        rw [← ih, hr]
        rfl
      rw [if_pos hr]
      by_cases hw : isWs c = true
      · rw [if_pos hw]
        have hrr : removeWs (c :: t) = removeWs t := by
          simp [removeWs, List.filter_cons, hw]
        rw [hrr, ht]
        rfl
      · simp only [Bool.not_eq_true] at hw
        rw [if_neg (by simp [hw])]
        have hl : removeWs ([c] : PyStr) = [c] := by
          simp [removeWs, List.filter_cons, hw]
        have hrr : removeWs (c :: t) = c :: removeWs t := by
          simp [removeWs, List.filter_cons, hw]
        rw [hl, hrr, ht]
    · rw [if_neg hr]
      by_cases hw : isWs c = true
      · simp [removeWs, List.filter_cons, hw] at ih ⊢
        exact ih
      · simp only [Bool.not_eq_true] at hw
        simp [removeWs, List.filter_cons, hw] at ih ⊢
        exact ih

theorem removeWs_pyStrip (l : PyStr) : removeWs (pyStrip l) = removeWs l := by
  unfold pyStrip
  rw [removeWs_dropEndWs, removeWs_dropWhile]

theorem dateClean_eq_map (v : PyStr) :
    dateClean v = removeWs (v.map (fun c =>
      (fun x => if x = '/' then '-' else x)
        ((fun x => if x = '.' then '-' else x) (translateCh c)))) := by
  unfold dateClean replaceChar translateNep
  rw [List.map_map, List.map_map]
  rfl

theorem dateF_ws (c : Char) :
    isWs ((fun x => if x = '/' then '-' else x)
      ((fun x => if x = '.' then '-' else x) (translateCh c))) = isWs c := by
  have h2 : ∀ x : Char, isWs (if x = '.' then '-' else x) = isWs x := by
    intro x
    by_cases hx : x = '.'
    · subst hx
      decide
    · rw [if_neg hx]
  have h3 : ∀ x : Char, isWs (if x = '/' then '-' else x) = isWs x := by
    intro x
    by_cases hx : x = '/'
    · subst hx
      decide
    · rw [if_neg hx]
  simp only [h3, h2, translateCh_ws]

theorem dateClean_pyStrip (v : PyStr) : dateClean (pyStrip v) = dateClean v := by
  rw [dateClean_eq_map, dateClean_eq_map, removeWs_map dateF_ws, removeWs_map dateF_ws,
    removeWs_pyStrip]

theorem dateClean_noop {v : PyStr} (h : ∀ c ∈ v, isAsciiDigit c = true ∨ c = '-') :
    dateClean v = v := by
  rw [dateClean_eq_map]
  have hmap : v.map (fun c =>
      (fun x => if x = '/' then '-' else x)
        ((fun x => if x = '.' then '-' else x) (translateCh c))) = v := by
    apply map_noop
    intro c hc
    rcases h c hc with ha | hd
    · have h1 : translateCh c = c := translateCh_ascii ha
      have h2 : ¬(c = '.') := ascii_toNat_ne ha (by decide)
      have h3 : ¬(c = '/') := ascii_toNat_ne ha (by decide)
      simp only [h1, h2, if_false, h3]
    · subst hd
      decide
  rw [hmap]
  apply List.filter_eq_self.mpr
  intro c hc
  rcases h c hc with ha | hd
  · simp [ascii_not_ws ha]
  · subst hd
    decide

theorem dateFmt_chars {y m d : Nat} :
    ∀ c ∈ dateFmt y m d, isAsciiDigit c = true ∨ c = '-' := by
  intro c hc
  unfold dateFmt at hc
  rcases List.mem_append.mp hc with h1 | h2
  · exact Or.inl (fmt0_ascii c h1)
  · rcases List.mem_cons.mp h2 with h3 | h4
    · exact Or.inr h3
    · rcases List.mem_append.mp h4 with h5 | h6
      · exact Or.inl (fmt0_ascii c h5)
      · rcases List.mem_cons.mp h6 with h7 | h8
        · exact Or.inr h7
        · exact Or.inl (fmt0_ascii c h8)

theorem dateFmt_clean (y m d : Nat) : dateClean (dateFmt y m d) = dateFmt y m d :=
  dateClean_noop dateFmt_chars

theorem dateFmt_not_ws {y m d : Nat} : ∀ c ∈ dateFmt y m d, isWs c = false := by
  intro c hc
  rcases dateFmt_chars c hc with ha | hd
  · exact ascii_not_ws ha
  · subst hd
    decide

theorem dateFmt_pyStrip (y m d : Nat) : pyStrip (dateFmt y m d) = dateFmt y m d :=
  pyStrip_noop dateFmt_not_ws

theorem dateFmt_ne_nil (y m d : Nat) : dateFmt y m d ≠ [] := by
  unfold dateFmt
  intro h
  rcases List.append_eq_nil.mp h with ⟨h1, h2⟩
  exact fmt0_ne_nil 4 y h1

theorem fmt0_ne_dash {w n : Nat} : ∀ c ∈ fmt0 w n, c ≠ '-' :=
  fun c hc => ascii_toNat_ne (fmt0_ascii c hc) (by decide)

theorem dateFmt_split (y m d : Nat) :
    splitChar '-' (dateFmt y m d) = [fmt0 4 y, fmt0 2 m, fmt0 2 d] := by
  unfold dateFmt
  rw [splitChar_append_sep _ fmt0_ne_dash, splitChar_append_sep _ fmt0_ne_dash,
    splitChar_no_sep fmt0_ne_dash]

theorem normalize_date_of_split3 {v : PyStr} {p0 p1 p2 : PyStr}
    (h : splitChar '-' (dateClean v) = [p0, p1, p2]) :
    normalize_date v =
      (if pyIsDigit (if p0.length = 4 then p0 else p2) && pyIsDigit p1 &&
          pyIsDigit (if p0.length = 4 then p2 else p0) then
        match pyIntNat (if p0.length = 4 then p0 else p2), pyIntNat p1,
            pyIntNat (if p0.length = 4 then p2 else p0) with
        | some y, some m, some d => .ok (dateFmt y m d)
        | _, _, _ => .error ()
      else .ok (pyStrip v)) := by
  unfold normalize_date
  rw [h]

theorem dateYearNum_of_split3 {v : PyStr} {p0 p1 p2 : PyStr}
    (h : splitChar '-' (dateClean v) = [p0, p1, p2]) :
    dateYearNum v = pyIntNat (if p0.length = 4 then p0 else p2) := by
  unfold dateYearNum
  rw [h]

theorem dateFmt_parse {y : Nat} (m d : Nat) (hy : y < 10000) :
    normalize_date (dateFmt y m d) = .ok (dateFmt y m d) := by
  have hsp : splitChar '-' (dateClean (dateFmt y m d)) = [fmt0 4 y, fmt0 2 m, fmt0 2 d] := by
    rw [dateFmt_clean, dateFmt_split]
  rw [normalize_date_of_split3 hsp]
  have hlen : (fmt0 4 y).length = 4 := fmt0_len (by norm_num) (by norm_num; omega)
  rw [if_pos hlen, if_pos hlen]
  rw [pyIsDigit_fmt0, pyIsDigit_fmt0, pyIsDigit_fmt0]
  simp only [Bool.and_self, if_true]
  rw [pyIntNat_fmt0, pyIntNat_fmt0, pyIntNat_fmt0]

theorem normalize_date_ok_spec {v r : PyStr}
    (hy : ∀ y, dateYearNum v = some y → y < 10000)
    (h : normalize_date v = .ok r) :
    normalize_date r = .ok r ∧ (r = pyStrip v ∨ ∃ y m d, r = dateFmt y m d) := by
  have hstrip2 : normalize_date v = .ok (pyStrip v) → r = pyStrip v := by
    intro hv
    rw [hv] at h
    injection h with h1
    exact h1.symm
  rcases hsp : splitChar '-' (dateClean v) with _ | ⟨p0, t0⟩
  · -- split = []
    have hv : normalize_date v = .ok (pyStrip v) := by
      unfold normalize_date
      rw [hsp]
    have hr := hstrip2 hv
    subst hr
    have hsp2 : splitChar '-' (dateClean (pyStrip v)) = [] := by
      rw [dateClean_pyStrip, hsp]
    refine ⟨?_, Or.inl rfl⟩
    unfold normalize_date
    rw [hsp2, pyStrip_idem]
  · rcases t0 with _ | ⟨p1, t1⟩
    · -- split = [p0]
      have hv : normalize_date v = .ok (pyStrip v) := by
        unfold normalize_date
        rw [hsp]
      have hr := hstrip2 hv
      subst hr
      have hsp2 : splitChar '-' (dateClean (pyStrip v)) = [p0] := by
        rw [dateClean_pyStrip, hsp]
      refine ⟨?_, Or.inl rfl⟩
      unfold normalize_date
      rw [hsp2, pyStrip_idem]
    · rcases t1 with _ | ⟨p2, t2⟩
      · -- split = [p0, p1]
        have hv : normalize_date v = .ok (pyStrip v) := by
          unfold normalize_date
          rw [hsp]
        have hr := hstrip2 hv
        subst hr
        have hsp2 : splitChar '-' (dateClean (pyStrip v)) = [p0, p1] := by
          rw [dateClean_pyStrip, hsp]
        refine ⟨?_, Or.inl rfl⟩
        unfold normalize_date
        rw [hsp2, pyStrip_idem]
      · rcases t2 with _ | ⟨p3, t3⟩
        · -- split = [p0, p1, p2]: the parsing branch
          rw [normalize_date_of_split3 hsp] at h
          by_cases hdig : (pyIsDigit (if p0.length = 4 then p0 else p2) && pyIsDigit p1 &&
              pyIsDigit (if p0.length = 4 then p2 else p0)) = true
          · rw [if_pos hdig] at h
            rcases hY : pyIntNat (if p0.length = 4 then p0 else p2) with _ | y
            · rw [hY] at h
              cases h
            · rcases hM : pyIntNat p1 with _ | m
              · rw [hY, hM] at h
                cases h
              · rcases hD : pyIntNat (if p0.length = 4 then p2 else p0) with _ | d
                · rw [hY, hM, hD] at h
                  cases h
                · rw [hY, hM, hD] at h
                  injection h with h1
                  have hylt : y < 10000 := by
                    apply hy
                    rw [dateYearNum_of_split3 hsp, hY]
                  subst h1
                  exact ⟨dateFmt_parse m d hylt, Or.inr ⟨y, m, d, rfl⟩⟩
          · rw [if_neg hdig] at h
            have hr : r = pyStrip v := by
              injection h with h1
              exact h1.symm
            subst hr
            have hsp2 : splitChar '-' (dateClean (pyStrip v)) = [p0, p1, p2] := by
              rw [dateClean_pyStrip, hsp]
            refine ⟨?_, Or.inl rfl⟩
            rw [normalize_date_of_split3 hsp2, if_neg hdig, pyStrip_idem]
        · -- split has four or more parts
          have hv : normalize_date v = .ok (pyStrip v) := by
            unfold normalize_date
            rw [hsp]
          have hr := hstrip2 hv
          subst hr
          have hsp2 : splitChar '-' (dateClean (pyStrip v)) = p0 :: p1 :: p2 :: p3 :: t3 := by
            rw [dateClean_pyStrip, hsp]
          refine ⟨?_, Or.inl rfl⟩
          unfold normalize_date
          rw [hsp2, pyStrip_idem]

/-! ## Guard helpers for `_normalize_value` -/

theorem guard_false {r : PyStr} (h1 : r ≠ []) (h2 : pyStrip r ≠ []) :
    (r.isEmpty || (pyStrip r).isEmpty) = false := by
  rw [Bool.or_eq_false_iff]
  constructor <;> simp [List.isEmpty_iff, h1, h2]

theorem strip_ne_of_guard {v : PyStr} (hg : ¬((v.isEmpty || (pyStrip v).isEmpty) = true)) :
    pyStrip v ≠ [] := by
  intro hnil
  apply hg
  rw [hnil]
  simp

theorem exists_not_ws_of_strip_ne {v : PyStr} (h : pyStrip v ≠ []) :
    ∃ c ∈ v, isWs c = false := by
  by_contra hcon
  push_neg at hcon
  apply h
  apply pyStrip_nil_of_allWs
  intro c hc
  have := hcon c hc
  simpa using this

theorem C9_aux_idem (f : Field) (v r : PyStr)
    (hy : dateCond f = true → ∀ y, dateYearNum v = some y → y < 10000)
    (h : normalize_value f v = .ok r) :
    normalize_value f r = .ok r := by
  unfold normalize_value at h ⊢
  by_cases hg : (v.isEmpty || (pyStrip v).isEmpty) = true
  · rw [if_pos hg] at h
    injection h with h1
    subst h1
    rw [if_pos (by decide)]
  · rw [if_neg hg] at h
    have hstrip : pyStrip v ≠ [] := strip_ne_of_guard hg
    obtain ⟨c0, hc0v, hc0w⟩ := exists_not_ws_of_strip_ne hstrip
    by_cases hE : emailCond f = true
    · rw [if_pos hE] at h
      injection h with h1
      subst h1
      have hre : normalize_email v = pyLower (pyStrip v) := normalize_email_eq v
      have hne : normalize_email v ≠ [] := by
        rw [hre]
        intro hnil
        exact hstrip (List.map_eq_nil_iff.mp hnil)
      have hse : pyStrip (normalize_email v) = normalize_email v := by
        rw [hre, pyLower_pyStrip, pyStrip_idem]
      rw [if_neg (by rw [guard_false hne (by rw [hse]; exact hne)]; simp), if_pos hE,
        normalize_email_idem]
    · rw [if_neg hE] at h
      by_cases hP : phoneCond f = true
      · rw [if_pos hP] at h
        injection h with h1
        subst h1
        have hcond : ((normalize_phone v).isEmpty ||
            (pyStrip (normalize_phone v)).isEmpty) = false := by
          by_cases hval : phoneValid (phoneReduce v) = true
          · have hr : normalize_phone v = phoneReduce v := by
              unfold normalize_phone
              rw [if_pos hval]
            have hlen := phoneValid_length hval
            have hne : normalize_phone v ≠ [] := by
              rw [hr]
              intro hnil
              rw [hnil] at hlen
              cases hlen
            have hsr : pyStrip (normalize_phone v) = normalize_phone v := by
              rw [hr]
              exact pyStrip_noop fun c hc => ascii_not_ws (phoneReduce_ascii c hc)
            exact guard_false hne (by rw [hsr]; exact hne)
          · have hr : normalize_phone v = v := by
              unfold normalize_phone
              rw [if_neg hval]
            rw [hr]
            exact Bool.not_eq_true _ ▸ Bool.of_not_eq_true hg
        rw [if_neg (by rw [hcond]; simp), if_neg hE, if_pos hP, normalize_phone_idem]
      · rw [if_neg hP] at h
        by_cases hD : dateCond f = true
        · rw [if_pos hD] at h
          obtain ⟨hidem, hshape⟩ := normalize_date_ok_spec (hy hD) h
          have hcond : (r.isEmpty || (pyStrip r).isEmpty) = false := by
            rcases hshape with hsv | ⟨y, m, d, hfmt⟩
            · subst hsv
              exact guard_false hstrip (by rw [pyStrip_idem]; exact hstrip)
            · subst hfmt
              exact guard_false (dateFmt_ne_nil y m d)
                (by rw [dateFmt_pyStrip]; exact dateFmt_ne_nil y m d)
          rw [if_neg (by rw [hcond]; simp), if_neg hE, if_neg hP, if_pos hD]
          exact hidem
        · rw [if_neg hD] at h
          by_cases hN : numberCond f = true
          · rw [if_pos hN] at h
            injection h with h1
            subst h1
            have hc1 : translateCh c0 ∈ removeSpaces (translateNep v) := by
              rw [removeSpaces, List.mem_filter]
              refine ⟨List.mem_map_of_mem translateCh hc0v, ?_⟩
              have hw2 : isWs (translateCh c0) = false := by rw [translateCh_ws]; exact hc0w
              simp [not_space_of_not_ws hw2]
            have hw2 : isWs (translateCh c0) = false := by rw [translateCh_ws]; exact hc0w
            have hne : removeSpaces (translateNep v) ≠ [] := by
              intro hnil
              rw [hnil] at hc1
              cases hc1
            have hsne : pyStrip (removeSpaces (translateNep v)) ≠ [] :=
              pyStrip_ne_nil hw2 hc1
            rw [if_neg (by rw [guard_false hne hsne]; simp), if_neg hE, if_neg hP,
              if_neg hD, if_pos hN, normalize_number_idem]
          · rw [if_neg hN] at h
            injection h with h1
            subst h1
            have hne : normalize_default v ≠ [] := normalize_default_ne_nil hc0w hc0v
            have hsne : pyStrip (normalize_default v) ≠ [] := by
              rw [pyStrip_normalize_default]
              exact hne
            rw [if_neg (by rw [guard_false hne hsne]; simp), if_neg hE, if_neg hP,
              if_neg hD, if_neg hN, normalize_default_idem]

/-! ## `setKey` / `autofill` lemmas -/

theorem setKey_same (g : GMap) (k : PyStr) (e : GEntry) : setKey g k e k = some e := by
  simp [setKey]

theorem setKey_other (g : GMap) (k : PyStr) (e : GEntry) {k2 : PyStr} (h : k2 ≠ k) :
    setKey g k e k2 = g k2 := by
  simp [setKey, h]

theorem getValue_congr {g g' : GMap} {k : PyStr} (h : g' k = g k) :
    getValue g' k = getValue g k := by
  unfold getValue
  rw [h]

theorem getConfD8_congr {g g' : GMap} {k : PyStr} (h : g' k = g k) :
    getConfD8 g' k = getConfD8 g k := by
  unfold getConfD8
  rw [h]

theorem autofill9_other (g : GMap) {k : PyStr} (h : k ≠ sF009) : autofill9 g k = g k := by
  unfold autofill9
  split_ifs <;> first | exact setKey_other g sF009 _ h | rfl

theorem autofill10_other (g : GMap) {k : PyStr} (h : k ≠ sF010) : autofill10 g k = g k := by
  unfold autofill10
  split_ifs <;> first | exact setKey_other g sF010 _ h | rfl

theorem autofill9_filled (g : GMap)
    (h9 : (pyStrip (getValue g sF009)).isEmpty = true)
    (h2 : (pyStrip (getValue g sF002)).isEmpty = false) :
    autofill9 g sF009 = some ⟨some (pyStrip (getValue g sF002)), some (getConfD8 g sF002),
      some (sNotesName ++ pyStrip (getValue g sF002))⟩ := by
  unfold autofill9
  rw [if_pos h9, if_pos (by rw [h2]; rfl)]
  exact setKey_same g sF009 _

theorem autofill10_filled (g : GMap)
    (h10 : (pyStrip (getValue g sF010)).isEmpty = true)
    (h6 : (pyStrip (getValue g sF006)).isEmpty = false) :
    autofill10 g sF010 = some ⟨some (pyStrip (getValue g sF006)), some (getConfD8 g sF006),
      some (sNotesAddr ++ pyStrip (getValue g sF006))⟩ := by
  unfold autofill10
  rw [if_pos h10, if_pos (by rw [h6]; rfl)]
  exact setKey_same g sF010 _

/-! ## Claim theorems, witnesses, and counterexamples -/

/-- A date-typed field (only `type` set, as in the land-tax template). -/
def exDateField : Field := ⟨some sDate, none, false, none, none, none, 1, none, none⟩

/-- An email-typed field. -/
def exEmailField : Field := ⟨some sEmail, none, false, none, none, none, 1, none, none⟩

/-- A sample stored proof row. -/
def exProof : ProofRecord := ⟨"deadbeef".data, "sig0".data, "wallet0".data, "link0".data⟩

/-- C1: the verification-status check returns `NOT_FOUND` on an absent
proof; on an existing proof it returns `VERIFIED_ON_CHAIN` when the remote
ledger query finds the stored transaction signature (RPC returns a
non-null value) and `VERIFIED_DB_PRUNED` when it does not (null value or
exception). -/
theorem C1_verification_status_transitions
    (rpc : PyStr → Except Unit (Option Unit)) (p : ProofRecord) :
    check_verification_status rpc none = VerificationStatus.NOT_FOUND ∧
    (rpc p.transaction_signature = .ok (some ()) →
      check_verification_status rpc (some p) = VerificationStatus.VERIFIED_ON_CHAIN) ∧
    ((rpc p.transaction_signature = .ok none ∨ rpc p.transaction_signature = .error ()) →
      check_verification_status rpc (some p) = VerificationStatus.VERIFIED_DB_PRUNED) := by
  refine ⟨rfl, ?_, ?_⟩
  · intro h
    simp [check_verification_status, verify_transaction_on_chain, h]
  · intro h
    rcases h with h | h <;> simp [check_verification_status, verify_transaction_on_chain, h]

/-- Witness for C1 at a concrete proof record and concrete RPC outcomes. -/
theorem C1_witness :
    check_verification_status (fun _ => .ok (some ())) (some exProof) =
      VerificationStatus.VERIFIED_ON_CHAIN ∧
    check_verification_status (fun _ => .error ()) (some exProof) =
      VerificationStatus.VERIFIED_DB_PRUNED ∧
    check_verification_status (fun _ => .ok (some ())) none =
      VerificationStatus.NOT_FOUND := by
  refine ⟨?_, ?_, ?_⟩
  · exact (C1_verification_status_transitions (fun _ => .ok (some ())) exProof).2.1 rfl
  · exact (C1_verification_status_transitions (fun _ => .error ()) exProof).2.2 (Or.inr rfl)
  · exact (C1_verification_status_transitions (fun _ => .ok (some ())) exProof).1

/-- A mixed-case, whitespace-padded file hash, as in the repository's own
test `test_document_proof_lookup_normalizes_hash`. -/
def hMixedEx : PyStr := "  ABC123DEF  ".data

/-- A sample transaction signature. -/
def sigEx : PyStr := "sig_abc".data

/-- A sample wallet address. -/
def walletEx : PyStr := "wallet_abc".data

/-- C2 (code bug): `save_document_proof` stores and looks up the file hash
verbatim — no trimming or lowercasing — so saving a padded upper-case hash
and then its normalized form creates two records, contrary to the spec and
to the repository's own test. -/
theorem C2_save_proof_stores_hash_verbatim :
    (save_document_proof hMixedEx sigEx walletEx []).2 =
      [⟨hMixedEx, sigEx, walletEx, explorerLink sigEx⟩] ∧
    normalize_file_hash hMixedEx ≠ hMixedEx ∧
    ((save_document_proof (normalize_file_hash hMixedEx) sigEx walletEx
        (save_document_proof hMixedEx sigEx walletEx []).2).2).length = 2 := by
  decide

/-- C3 (code bug): on a date-typed field, a value whose parts all pass
`str.isdigit` but contain a superscript digit makes `int(...)` raise
`ValueError`, so `_normalize_value` raises instead of returning a string. -/
theorem C3_normalize_raises_on_superscript_date :
    normalize_value exDateField ("2024-10-²".data) = .error () ∧
    pyIsDigit ("²".data) = true ∧ pyIntNat ("²".data) = none := by
  decide

/-- C4 (code bug): when the extraction orchestrator reaches the OCR
fallback and the OCR engine fails, the temporary image files staged for it
are still on disk when the call raises (cleanup runs only on the success
path). -/
theorem C4_temp_files_survive_ocr_failure :
    (@extract_from_files Unit 1 false none none (.error ()) (.error ()) []).1 = .error () ∧
    (@extract_from_files Unit 1 false none none (.error ()) (.error ()) []).2 = [0] := by
  decide

/-- Counterexample to C5 as stated: `"ABC"` fails the email validity check
(it has no `@`), yet it is returned lowercased as `"abc"`, not unchanged. -/
theorem C5_counterexample :
    ("ABC".data : PyStr).contains '@' = false ∧
    normalize_value exEmailField ("ABC".data) = .ok ("abc".data) ∧
    ("abc".data : PyStr) ≠ ("ABC".data : PyStr) := by
  decide

/-- C5 (amended): for every email-dispatched field and nonempty value,
normalization returns the trimmed, lowercased input — whether or not the
input passes the validity check (both branches of `_normalize_email`
return the same rebound value). -/
theorem C5_email_always_trimmed_lowercased (f : Field) (v : PyStr)
    (hf : emailCond f = true) (hg : (v.isEmpty || (pyStrip v).isEmpty) = false) :
    normalize_value f v = .ok (pyLower (pyStrip v)) := by
  unfold normalize_value
  rw [if_neg (by rw [hg]; simp), if_pos hf, normalize_email_eq]

/-- Witness for C5 at a concrete field and value. -/
theorem C5_witness :
    normalize_value exEmailField (" Ab@C.dd ".data) =
      .ok (pyLower (pyStrip (" Ab@C.dd ".data))) :=
  C5_email_always_trimmed_lowercased exEmailField (" Ab@C.dd ".data) (by decide) (by decide)

/-- Counterexample to C9 as stated: on a date field, a parsed year of five
digits re-parses as a day on the second application, so normalization is
not idempotent. -/
theorem C9_counterexample :
    normalize_value exDateField ("1-2-34567".data) = .ok ("34567-02-01".data) ∧
    normalize_value exDateField ("34567-02-01".data) = .ok ("0001-02-34567".data) ∧
    ("0001-02-34567".data : PyStr) ≠ ("34567-02-01".data : PyStr) := by
  decide

/-- C9 (amended): field normalization is idempotent for every field type
and every input, provided that for date-dispatched fields the parsed year
component (if any) is below 10000: a successful normalization re-normalizes
to itself. -/
theorem C9_normalize_idempotent (f : Field) (v r : PyStr)
    (hy : dateCond f = true → ∀ y, dateYearNum v = some y → y < 10000)
    (h : normalize_value f v = .ok r) :
    normalize_value f r = .ok r :=
  C9_aux_idem f v r hy h

/-- Witness for C9 at a concrete date field and value. -/
theorem C9_witness :
    normalize_value exDateField ("2024-01-02".data) = .ok ("2024-01-02".data) :=
  C9_normalize_idempotent exDateField (" 2024/1/2 ".data) ("2024-01-02".data)
    (fun _ y hyy => by
      have h2 : dateYearNum ((" 2024/1/2 ").data) = some 2024 := by decide
      rw [h2, Option.some_inj] at hyy
      omega)
    (by decide)

/-- C10: `prepare_pdf_fields` mutates its extraction-record argument in
place: when `f009` is empty or whitespace-only and `f002` is not, the
returned dictionary maps `f009` to a copy of `f002`'s trimmed value and
its confidence (defaulting to 0.8 when absent), likewise `f010` from
`f006`; every other key is unchanged. -/
theorem C10_prepare_autofill (g : GMap) (tpl : List (Option Field)) :
    ((pyStrip (getValue g sF009)).isEmpty = true →
      (pyStrip (getValue g sF002)).isEmpty = false →
      (prepare_pdf_fields g tpl).1 sF009 = some ⟨some (pyStrip (getValue g sF002)),
        some (getConfD8 g sF002), some (sNotesName ++ pyStrip (getValue g sF002))⟩) ∧
    ((pyStrip (getValue g sF010)).isEmpty = true →
      (pyStrip (getValue g sF006)).isEmpty = false →
      (prepare_pdf_fields g tpl).1 sF010 = some ⟨some (pyStrip (getValue g sF006)),
        some (getConfD8 g sF006), some (sNotesAddr ++ pyStrip (getValue g sF006))⟩) ∧
    (∀ k, k ≠ sF009 → k ≠ sF010 → (prepare_pdf_fields g tpl).1 k = g k) := by
  have hpre : (prepare_pdf_fields g tpl).1 = autofill g := rfl
  have hv10 : getValue (autofill9 g) sF010 = getValue g sF010 :=
    getValue_congr (autofill9_other g (by decide))
  have hv6 : getValue (autofill9 g) sF006 = getValue g sF006 :=
    getValue_congr (autofill9_other g (by decide))
  have hc6 : getConfD8 (autofill9 g) sF006 = getConfD8 g sF006 :=
    getConfD8_congr (autofill9_other g (by decide))
  refine ⟨?_, ?_, ?_⟩
  · intro h9 h2
    rw [hpre]
    unfold autofill
    rw [autofill10_other (autofill9 g) (by decide)]
    exact autofill9_filled g h9 h2
  · intro h10 h6
    rw [hpre]
    unfold autofill
    have := autofill10_filled (autofill9 g) (by rw [hv10]; exact h10) (by rw [hv6]; exact h6)
    rw [this, hv6, hc6]
  · intro k hk9 hk10
    rw [hpre]
    unfold autofill
    rw [autofill10_other (autofill9 g) hk10]
    exact autofill9_other g hk9

/-- A Gemini output with only an owner name (`f002`). -/
def gEx : GMap := fun k => if k = sF002 then some ⟨some (" John ".data), some 9, none⟩ else none

/-- Witness for C10 at a concrete extraction record. -/
theorem C10_witness :
    (prepare_pdf_fields gEx []).1 sF009 = some ⟨some (pyStrip (getValue gEx sF002)),
      some (getConfD8 gEx sF002), some (sNotesName ++ pyStrip (getValue gEx sF002))⟩ :=
  (C10_prepare_autofill gEx []).1 (by decide) (by decide)

/-! ## C6: OCR fallback error condition -/

theorem collectOCR_nil_iff (tpl : List (Option OCRField)) :
    ∀ idx imgs, collectOCR tpl idx imgs = [] ↔
      ∀ img ∈ imgs, extract_fields_with_ocr tpl img = .error () := by
  intro idx imgs
  induction imgs generalizing idx with
  | nil => simp [collectOCR]
  | cons img rest ih =>
    rcases he : extract_fields_with_ocr tpl img with e | es
    · simp only [collectOCR, he]
      rw [ih (idx + 1)]
      constructor
      · intro hall i hi
        rcases List.mem_cons.mp hi with h1 | h2
        · subst h1
          cases e
          exact he
        · exact hall i h2
      · intro hall i hi
        exact hall i (List.mem_cons_of_mem img hi)
    · simp only [collectOCR, he]
      constructor
      · intro hcons
        cases hcons
      · intro hall
        have hh := hall img (List.mem_cons_self img rest)
        rw [he] at hh
        cases hh

/-- Counterexample to C6 as stated: a single readable image whose only
field has a usable bounding box but recognizes as empty text — no field
yields any text, yet the extraction returns a record (with empty value and
confidence 0) and does not raise. -/
theorem C6_counterexample :
    extract_fields_from_multiple_images [some ⟨some ("f1".data), true⟩]
        [⟨true, fun _ => false, fun _ => .ok []⟩] =
      .ok [(("f1".data), ⟨[], 0, some 1⟩)] := by
  decide

/-- C6 (amended): the multi-image OCR extraction raises `OCRFallbackError`
if and only if every supplied image individually fails (unreadable image,
recognizer error, or no field producing an entry); an image whose fields
produce entries — even with empty recognized text — yields a record
normally. -/
theorem C6_ocr_error_iff_all_images_fail (tpl : List (Option OCRField))
    (imgs : List OCRImage) :
    extract_fields_from_multiple_images tpl imgs = .error () ↔
      ∀ img ∈ imgs, extract_fields_with_ocr tpl img = .error () := by
  unfold extract_fields_from_multiple_images
  by_cases hnil : collectOCR tpl 0 imgs = []
  · simp only [hnil, List.isEmpty_nil, if_true]
    exact iff_of_true trivial ((collectOCR_nil_iff tpl 0 imgs).mp hnil)
  · have hne : (collectOCR tpl 0 imgs).isEmpty = false := by
      simp [List.isEmpty_iff, hnil]
    simp only [hne, Bool.false_eq_true, if_false]
    exact iff_of_false (by simp) fun hall => hnil ((collectOCR_nil_iff tpl 0 imgs).mpr hall)

/-- Witness for C6: with an unreadable image and an image whose recognizer
errors, the multi-image extraction raises. -/
theorem C6_witness :
    extract_fields_from_multiple_images [some ⟨some ("f1".data), true⟩]
        [⟨false, fun _ => false, fun _ => .ok []⟩,
         ⟨true, fun _ => false, fun _ => .error ()⟩] = .error () := by
  apply (C6_ocr_error_iff_all_images_fail _ _).mpr
  intro img hi
  rcases List.mem_cons.mp hi with h1 | h2
  · subst h1
    decide
  · rcases List.mem_cons.mp h2 with h3 | h4
    · subst h3
      decide
    · cases h4

/-! ## C7: the Gemini retry loop -/

theorem runAttempts_ok {α : Type} (oracle : Nat → Except PyStr α) (a f : Nat) (v : α)
    (h : oracle a = .ok v) :
    runAttempts oracle a (f + 1) = (.ok v, [GemEvent.attempt a (timeoutFor a)]) := by
  unfold runAttempts
  rw [h]

theorem runAttempts_fatal {α : Type} (oracle : Nat → Except PyStr α) (a f : Nat) (m : PyStr)
    (h : oracle a = .error m) (hk : ¬(classifyError m = ErrClass.retryable ∧ a < 2)) :
    runAttempts oracle a (f + 1) =
      (.error (classifyError m, m), [GemEvent.attempt a (timeoutFor a)]) := by
  unfold runAttempts
  rw [h]
  dsimp only
  rw [if_neg hk]

theorem runAttempts_retry {α : Type} (oracle : Nat → Except PyStr α) (a f : Nat) (m : PyStr)
    (h : oracle a = .error m) (hk : classifyError m = ErrClass.retryable ∧ a < 2) :
    runAttempts oracle a (f + 1) =
      ((runAttempts oracle (a + 1) f).1,
        GemEvent.attempt a (timeoutFor a) :: GemEvent.slept a (2 ^ a) ::
          (runAttempts oracle (a + 1) f).2) := by
  conv_lhs => rw [runAttempts]
  rw [h]
  dsimp only
  rw [if_pos hk]

theorem runs_cases {α : Type} (oracle : Nat → Except PyStr α) :
    (∃ v, oracle 0 = .ok v ∧
      extract_fields_from_images oracle = (.ok v, [GemEvent.attempt 0 30])) ∨
    (∃ m, oracle 0 = .error m ∧ classifyError m ≠ ErrClass.retryable ∧
      extract_fields_from_images oracle =
        (.error (classifyError m, m), [GemEvent.attempt 0 30])) ∨
    (∃ m0, oracle 0 = .error m0 ∧ classifyError m0 = ErrClass.retryable ∧
      ((∃ v, oracle 1 = .ok v ∧ extract_fields_from_images oracle =
          (.ok v, [GemEvent.attempt 0 30, GemEvent.slept 0 1, GemEvent.attempt 1 60])) ∨
       (∃ m, oracle 1 = .error m ∧ classifyError m ≠ ErrClass.retryable ∧
          extract_fields_from_images oracle = (.error (classifyError m, m),
            [GemEvent.attempt 0 30, GemEvent.slept 0 1, GemEvent.attempt 1 60])) ∨
       (∃ m1, oracle 1 = .error m1 ∧ classifyError m1 = ErrClass.retryable ∧
         ((∃ v, oracle 2 = .ok v ∧ extract_fields_from_images oracle = (.ok v,
             [GemEvent.attempt 0 30, GemEvent.slept 0 1, GemEvent.attempt 1 60,
              GemEvent.slept 1 2, GemEvent.attempt 2 90])) ∨
          (∃ m, oracle 2 = .error m ∧ extract_fields_from_images oracle =
             (.error (classifyError m, m),
              [GemEvent.attempt 0 30, GemEvent.slept 0 1, GemEvent.attempt 1 60,
               GemEvent.slept 1 2, GemEvent.attempt 2 90])))))) := by
  cases h0 : oracle 0 with
  | ok v =>
    refine Or.inl ⟨v, rfl, ?_⟩
    show runAttempts oracle 0 3 = _
    exact runAttempts_ok oracle 0 2 v h0
  | error m0 =>
    by_cases hc0 : classifyError m0 = ErrClass.retryable
    · refine Or.inr (Or.inr ⟨m0, rfl, hc0, ?_⟩)
      have e0 : runAttempts oracle 0 3 = ((runAttempts oracle 1 2).1,
          GemEvent.attempt 0 30 :: GemEvent.slept 0 1 :: (runAttempts oracle 1 2).2) :=
        runAttempts_retry oracle 0 2 m0 h0 ⟨hc0, by omega⟩
      cases h1 : oracle 1 with
      | ok v =>
        refine Or.inl ⟨v, rfl, ?_⟩
        have e1 : runAttempts oracle 1 2 = (.ok v, [GemEvent.attempt 1 60]) :=
          runAttempts_ok oracle 1 1 v h1
        show runAttempts oracle 0 3 = _
        rw [e0, e1]
      | error m1 =>
        by_cases hc1 : classifyError m1 = ErrClass.retryable
        · refine Or.inr (Or.inr ⟨m1, rfl, hc1, ?_⟩)
          have e1 : runAttempts oracle 1 2 = ((runAttempts oracle 2 1).1,
              GemEvent.attempt 1 60 :: GemEvent.slept 1 2 :: (runAttempts oracle 2 1).2) :=
            runAttempts_retry oracle 1 1 m1 h1 ⟨hc1, by omega⟩
          cases h2 : oracle 2 with
          | ok v =>
            refine Or.inl ⟨v, rfl, ?_⟩
            have e2 : runAttempts oracle 2 1 = (.ok v, [GemEvent.attempt 2 90]) :=
              runAttempts_ok oracle 2 0 v h2
            show runAttempts oracle 0 3 = _
            rw [e0, e1, e2]
          | error m2 =>
            refine Or.inr ⟨m2, rfl, ?_⟩
            have e2 : runAttempts oracle 2 1 =
                (.error (classifyError m2, m2), [GemEvent.attempt 2 90]) :=
              runAttempts_fatal oracle 2 0 m2 h2 (fun hand => by omega)
            show runAttempts oracle 0 3 = _
            rw [e0, e1, e2]
        · refine Or.inr (Or.inl ⟨m1, rfl, hc1, ?_⟩)
          have e1 : runAttempts oracle 1 2 =
              (.error (classifyError m1, m1), [GemEvent.attempt 1 60]) :=
            runAttempts_fatal oracle 1 1 m1 h1 (fun hand => hc1 hand.1)
          show runAttempts oracle 0 3 = _
          rw [e0, e1]
    · refine Or.inr (Or.inl ⟨m0, rfl, hc0, ?_⟩)
      show runAttempts oracle 0 3 = _
      exact runAttempts_fatal oracle 0 2 m0 h0 (fun hand => hc0 hand.1)

/-- C7: the vision extraction engine makes at most 3 attempts with
per-attempt timeouts 30s/60s/90s and sleeps of `2 ** attempt` seconds
(1s, 2s) between attempts; classification runs in priority order
quota, auth, content, retryable; a failure classified quota/auth/content
(or anything non-retryable) aborts immediately with no further attempt;
an attempt is retried only after a retryable failure; and any error on
the final attempt is fatal. -/
theorem C7_gemini_retry_policy {α : Type} (oracle : Nat → Except PyStr α) :
    (timeoutFor 0 = 30 ∧ timeoutFor 1 = 60 ∧ timeoutFor 2 = 90) ∧
    (∀ i t, GemEvent.attempt i t ∈ (extract_fields_from_images oracle).2 →
      i < 3 ∧ t = timeoutFor i) ∧
    (∀ i s, GemEvent.slept i s ∈ (extract_fields_from_images oracle).2 →
      i < 2 ∧ s = 2 ^ i ∧ outcomeClass oracle i = some ErrClass.retryable) ∧
    (∀ i t, GemEvent.attempt (i + 1) t ∈ (extract_fields_from_images oracle).2 →
      outcomeClass oracle i = some ErrClass.retryable) ∧
    (∀ i m, attemptOccurs i (extract_fields_from_images oracle).2 →
      oracle i = .error m → classifyError m ≠ ErrClass.retryable →
      (extract_fields_from_images oracle).1 = .error (classifyError m, m) ∧
      ¬ attemptOccurs (i + 1) (extract_fields_from_images oracle).2) ∧
    (∀ m, oracle 2 = .error m → attemptOccurs 2 (extract_fields_from_images oracle).2 →
      (extract_fields_from_images oracle).1 = .error (classifyError m, m)) ∧
    (∀ m, matchesAny quotaKeywords (pyLower m) = true →
      classifyError m = ErrClass.quota) ∧
    (∀ m, matchesAny quotaKeywords (pyLower m) = false →
      matchesAny authKeywords (pyLower m) = true → classifyError m = ErrClass.auth) ∧
    (∀ m, matchesAny quotaKeywords (pyLower m) = false →
      matchesAny authKeywords (pyLower m) = false →
      matchesAny contentKeywords (pyLower m) = true →
      classifyError m = ErrClass.content) ∧
    (∀ m, matchesAny quotaKeywords (pyLower m) = false →
      matchesAny authKeywords (pyLower m) = false →
      matchesAny contentKeywords (pyLower m) = false →
      matchesAny retryKeywords (pyLower m) = true →
      classifyError m = ErrClass.retryable) := by
  have hcq : ∀ m, matchesAny quotaKeywords (pyLower m) = true →
      classifyError m = ErrClass.quota := by
    intro m hm
    simp [classifyError, hm]
  have hca : ∀ m, matchesAny quotaKeywords (pyLower m) = false →
      matchesAny authKeywords (pyLower m) = true → classifyError m = ErrClass.auth := by
    intro m h1 h2
    simp [classifyError, h1, h2]
  have hcc : ∀ m, matchesAny quotaKeywords (pyLower m) = false →
      matchesAny authKeywords (pyLower m) = false →
      matchesAny contentKeywords (pyLower m) = true →
      classifyError m = ErrClass.content := by
    intro m h1 h2 h3
    simp [classifyError, h1, h2, h3]
  have hcr : ∀ m, matchesAny quotaKeywords (pyLower m) = false →
      matchesAny authKeywords (pyLower m) = false →
      matchesAny contentKeywords (pyLower m) = false →
      matchesAny retryKeywords (pyLower m) = true →
      classifyError m = ErrClass.retryable := by
    intro m h1 h2 h3 h4
    simp [classifyError, h1, h2, h3, h4]
  have main : (∀ i t, GemEvent.attempt i t ∈ (extract_fields_from_images oracle).2 →
      i < 3 ∧ t = timeoutFor i) ∧
    (∀ i s, GemEvent.slept i s ∈ (extract_fields_from_images oracle).2 →
      i < 2 ∧ s = 2 ^ i ∧ outcomeClass oracle i = some ErrClass.retryable) ∧
    (∀ i t, GemEvent.attempt (i + 1) t ∈ (extract_fields_from_images oracle).2 →
      outcomeClass oracle i = some ErrClass.retryable) ∧
    (∀ i m, attemptOccurs i (extract_fields_from_images oracle).2 →
      oracle i = .error m → classifyError m ≠ ErrClass.retryable →
      (extract_fields_from_images oracle).1 = .error (classifyError m, m) ∧
      ¬ attemptOccurs (i + 1) (extract_fields_from_images oracle).2) ∧
    (∀ m, oracle 2 = .error m → attemptOccurs 2 (extract_fields_from_images oracle).2 →
      (extract_fields_from_images oracle).1 = .error (classifyError m, m)) := by
    rcases runs_cases oracle with ⟨v, h0, hrun⟩ | ⟨m, h0, hc, hrun⟩ |
      ⟨m0, h0, hc0, ⟨v, h1, hrun⟩ | ⟨m, h1, hc1, hrun⟩ |
        ⟨m1, h1, hc1, ⟨v, h2, hrun⟩ | ⟨m2, h2, hrun⟩⟩⟩ <;>
      rw [hrun] <;> dsimp only
    -- leaf 1: success on attempt 0
    · refine ⟨?_, ?_, ?_, ?_, ?_⟩
      · intro i t hm
        simp only [List.mem_singleton, GemEvent.attempt.injEq] at hm
        obtain ⟨hi, ht⟩ := hm
        subst hi
        subst ht
        exact ⟨by omega, by decide⟩
      · intro i s hm
        simp at hm
      · intro i t hm
        simp only [List.mem_singleton, GemEvent.attempt.injEq] at hm
        obtain ⟨hi, -⟩ := hm
        omega
      · intro i m' hocc ho hcne
        obtain ⟨t, ht⟩ := hocc
        simp only [List.mem_singleton, GemEvent.attempt.injEq] at ht
        obtain ⟨hi, -⟩ := ht
        subst hi
        rw [h0] at ho
        simp at ho
      · intro m' h2x hocc
        obtain ⟨t, ht⟩ := hocc
        simp at ht
    -- leaf 2: non-retryable failure on attempt 0
    · refine ⟨?_, ?_, ?_, ?_, ?_⟩
      · intro i t hm
        simp only [List.mem_singleton, GemEvent.attempt.injEq] at hm
        obtain ⟨hi, ht⟩ := hm
        subst hi
        subst ht
        exact ⟨by omega, by decide⟩
      · intro i s hm
        simp at hm
      · intro i t hm
        simp only [List.mem_singleton, GemEvent.attempt.injEq] at hm
        obtain ⟨hi, -⟩ := hm
        omega
      · intro i m' hocc ho hcne
        obtain ⟨t, ht⟩ := hocc
        simp only [List.mem_singleton, GemEvent.attempt.injEq] at ht
        obtain ⟨hi, -⟩ := ht
        subst hi
        rw [h0] at ho
        injection ho with hm'
        subst hm'
        refine ⟨rfl, ?_⟩
        intro ⟨t2, ht2⟩
        simp at ht2
      · intro m' h2x hocc
        obtain ⟨t, ht⟩ := hocc
        simp at ht
    -- leaf 3: retryable at 0, success at 1
    · refine ⟨?_, ?_, ?_, ?_, ?_⟩
      · intro i t hm
        simp only [List.mem_cons, List.mem_singleton, GemEvent.attempt.injEq,
          List.not_mem_nil, or_false, reduceCtorEq, false_or] at hm
        rcases hm with ⟨hi, ht⟩ | ⟨hi, ht⟩ <;> subst hi <;> subst ht <;>
          exact ⟨by omega, by decide⟩
      · intro i s hm
        simp only [List.mem_cons, List.mem_singleton, GemEvent.slept.injEq,
          List.not_mem_nil, or_false, reduceCtorEq, false_or] at hm
        obtain ⟨hi, hs⟩ := hm
        subst hi
        subst hs
        exact ⟨by omega, by decide, by simp [outcomeClass, h0, hc0]⟩
      · intro i t hm
        simp only [List.mem_cons, List.mem_singleton, GemEvent.attempt.injEq,
          List.not_mem_nil, or_false, reduceCtorEq, false_or] at hm
        rcases hm with ⟨hi, -⟩ | ⟨hi, -⟩
        · exact hi.elim
        · have hi0 : i = 0 := by omega
          subst hi0
          simp [outcomeClass, h0, hc0]
      · intro i m' hocc ho hcne
        obtain ⟨t, ht⟩ := hocc
        simp only [List.mem_cons, List.mem_singleton, GemEvent.attempt.injEq,
          List.not_mem_nil, or_false, reduceCtorEq, false_or] at ht
        rcases ht with ⟨hi, -⟩ | ⟨hi, -⟩ <;> subst hi
        · rw [h0] at ho
          injection ho with hm'
          subst hm'
          exact absurd hc0 hcne
        · rw [h1] at ho
          simp at ho
      · intro m' h2x hocc
        obtain ⟨t, ht⟩ := hocc
        simp at ht
    -- leaf 4: retryable at 0, non-retryable failure at 1
    · refine ⟨?_, ?_, ?_, ?_, ?_⟩
      · intro i t hm
        simp only [List.mem_cons, List.mem_singleton, GemEvent.attempt.injEq,
          List.not_mem_nil, or_false, reduceCtorEq, false_or] at hm
        rcases hm with ⟨hi, ht⟩ | ⟨hi, ht⟩ <;> subst hi <;> subst ht <;>
          exact ⟨by omega, by decide⟩
      · intro i s hm
        simp only [List.mem_cons, List.mem_singleton, GemEvent.slept.injEq,
          List.not_mem_nil, or_false, reduceCtorEq, false_or] at hm
        obtain ⟨hi, hs⟩ := hm
        subst hi
        subst hs
        exact ⟨by omega, by decide, by simp [outcomeClass, h0, hc0]⟩
      · intro i t hm
        simp only [List.mem_cons, List.mem_singleton, GemEvent.attempt.injEq,
          List.not_mem_nil, or_false, reduceCtorEq, false_or] at hm
        rcases hm with ⟨hi, -⟩ | ⟨hi, -⟩
        · exact hi.elim
        · have hi0 : i = 0 := by omega
          subst hi0
          simp [outcomeClass, h0, hc0]
      · intro i m' hocc ho hcne
        obtain ⟨t, ht⟩ := hocc
        simp only [List.mem_cons, List.mem_singleton, GemEvent.attempt.injEq,
          List.not_mem_nil, or_false, reduceCtorEq, false_or] at ht
        rcases ht with ⟨hi, -⟩ | ⟨hi, -⟩ <;> subst hi
        · rw [h0] at ho
          injection ho with hm'
          subst hm'
          exact absurd hc0 hcne
        · rw [h1] at ho
          injection ho with hm'
          subst hm'
          refine ⟨rfl, ?_⟩
          intro ⟨t2, ht2⟩
          simp at ht2
      · intro m' h2x hocc
        obtain ⟨t, ht⟩ := hocc
        simp at ht
    -- leaf 5: retryable at 0 and 1, success at 2
    · refine ⟨?_, ?_, ?_, ?_, ?_⟩
      · intro i t hm
        simp only [List.mem_cons, List.mem_singleton, GemEvent.attempt.injEq,
          List.not_mem_nil, or_false, reduceCtorEq, false_or] at hm
        rcases hm with ⟨hi, ht⟩ | ⟨hi, ht⟩ | ⟨hi, ht⟩ <;> subst hi <;> subst ht <;>
          exact ⟨by omega, by decide⟩
      · intro i s hm
        simp only [List.mem_cons, List.mem_singleton, GemEvent.slept.injEq,
          List.not_mem_nil, or_false, reduceCtorEq, false_or] at hm
        rcases hm with ⟨hi, hs⟩ | ⟨hi, hs⟩ <;> subst hi <;> subst hs
        · exact ⟨by omega, by decide, by simp [outcomeClass, h0, hc0]⟩
        · exact ⟨by omega, by decide, by simp [outcomeClass, h1, hc1]⟩
      · intro i t hm
        simp only [List.mem_cons, List.mem_singleton, GemEvent.attempt.injEq,
          List.not_mem_nil, or_false, reduceCtorEq, false_or] at hm
        rcases hm with ⟨hi, -⟩ | ⟨hi, -⟩ | ⟨hi, -⟩
        · exact hi.elim
        · have hi0 : i = 0 := by omega
          subst hi0
          simp [outcomeClass, h0, hc0]
        · have hi1 : i = 1 := by omega
          subst hi1
          simp [outcomeClass, h1, hc1]
      · intro i m' hocc ho hcne
        obtain ⟨t, ht⟩ := hocc
        simp only [List.mem_cons, List.mem_singleton, GemEvent.attempt.injEq,
          List.not_mem_nil, or_false, reduceCtorEq, false_or] at ht
        rcases ht with ⟨hi, -⟩ | ⟨hi, -⟩ | ⟨hi, -⟩ <;> subst hi
        · rw [h0] at ho
          injection ho with hm'
          subst hm'
          exact absurd hc0 hcne
        · rw [h1] at ho
          injection ho with hm'
          subst hm'
          exact absurd hc1 hcne
        · rw [h2] at ho
          simp at ho
      · intro m' h2x hocc
        rw [h2] at h2x
        simp at h2x
    -- leaf 6: retryable at 0 and 1, failure at 2 (fatal regardless of class)
    · refine ⟨?_, ?_, ?_, ?_, ?_⟩
      · intro i t hm
        simp only [List.mem_cons, List.mem_singleton, GemEvent.attempt.injEq,
          List.not_mem_nil, or_false, reduceCtorEq, false_or] at hm
        rcases hm with ⟨hi, ht⟩ | ⟨hi, ht⟩ | ⟨hi, ht⟩ <;> subst hi <;> subst ht <;>
          exact ⟨by omega, by decide⟩
      · intro i s hm
        simp only [List.mem_cons, List.mem_singleton, GemEvent.slept.injEq,
          List.not_mem_nil, or_false, reduceCtorEq, false_or] at hm
        rcases hm with ⟨hi, hs⟩ | ⟨hi, hs⟩ <;> subst hi <;> subst hs
        · exact ⟨by omega, by decide, by simp [outcomeClass, h0, hc0]⟩
        · exact ⟨by omega, by decide, by simp [outcomeClass, h1, hc1]⟩
      · intro i t hm
        simp only [List.mem_cons, List.mem_singleton, GemEvent.attempt.injEq,
          List.not_mem_nil, or_false, reduceCtorEq, false_or] at hm
        rcases hm with ⟨hi, -⟩ | ⟨hi, -⟩ | ⟨hi, -⟩
        · exact hi.elim
        · have hi0 : i = 0 := by omega
          subst hi0
          simp [outcomeClass, h0, hc0]
        · have hi1 : i = 1 := by omega
          subst hi1
          simp [outcomeClass, h1, hc1]
      · intro i m' hocc ho hcne
        obtain ⟨t, ht⟩ := hocc
        simp only [List.mem_cons, List.mem_singleton, GemEvent.attempt.injEq,
          List.not_mem_nil, or_false, reduceCtorEq, false_or] at ht
        rcases ht with ⟨hi, -⟩ | ⟨hi, -⟩ | ⟨hi, -⟩ <;> subst hi
        · rw [h0] at ho
          injection ho with hm'
          subst hm'
          exact absurd hc0 hcne
        · rw [h1] at ho
          injection ho with hm'
          subst hm'
          exact absurd hc1 hcne
        · rw [h2] at ho
          injection ho with hm'
          subst hm'
          refine ⟨rfl, ?_⟩
          intro ⟨t2, ht2⟩
          simp at ht2
      · intro m' h2x hocc
        rw [h2] at h2x
        injection h2x with hm'
        subst hm'
        rfl
  exact ⟨by decide, main.1, main.2.1, main.2.2.1, main.2.2.2.1, main.2.2.2.2,
    hcq, hca, hcc, hcr⟩

/-- A retryable oracle used by the C7 witness. -/
def oracleW : Nat → Except PyStr Unit := fun _ => .error ("timeout".data)

/-- Witness for C7: concrete retry trace facts obtained from the policy
theorem at an always-timeout oracle. -/
theorem C7_witness :
    (2 < 3 ∧ 90 = timeoutFor 2) ∧
    (1 < 2 ∧ 2 = 2 ^ 1 ∧ outcomeClass oracleW 1 = some ErrClass.retryable) := by
  have h := C7_gemini_retry_policy oracleW
  exact ⟨h.2.1 2 90 (by decide), h.2.2.1 1 2 (by decide)⟩

/-! ## C8: phone normalization -/

/-- Counterexample to C8 as stated: `"98-1234-5678"` is neither an
exactly-10-digit string nor a 13-digit `977` number, yet it is normalized
to its digit content instead of being returned unchanged. -/
theorem C8_counterexample :
    normalize_phone ("98-1234-5678".data) = ("9812345678".data) ∧
    ("9812345678".data : PyStr) ≠ ("98-1234-5678".data : PyStr) := by
  decide

/-- C8 (amended): a valid exactly-10-digit mobile number normalizes to
itself; a 13-digit `977`-prefixed number with a valid 10-digit tail
normalizes to that tail; an input whose digit reduction fails the validity
test is returned unchanged; and in general the output is either the
original input or a valid all-ASCII 10-digit number — so inputs of other
shapes (separators, extra digits, localized numerals) whose digit
reduction is valid are normalized, not returned unchanged. -/
theorem C8_phone_normalization (v : PyStr) :
    ((∀ c ∈ v, isAsciiDigit c = true) → phoneValid v = true → normalize_phone v = v) ∧
    ((∀ c ∈ v, isAsciiDigit c = true) → v.length = 13 →
      ("977".data).isPrefixOf v = true → phoneValid (v.drop 3) = true →
      normalize_phone v = v.drop 3) ∧
    (phoneValid (phoneReduce v) = false → normalize_phone v = v) ∧
    (normalize_phone v = v ∨
      (phoneValid (normalize_phone v) = true ∧
        ∀ c ∈ normalize_phone v, isAsciiDigit c = true)) := by
  refine ⟨?_, ?_, ?_, ?_⟩
  · intro hv hvalid
    have hred := phoneReduce_of_valid hv (phoneValid_length hvalid)
    unfold normalize_phone
    rw [hred, if_pos hvalid]
  · intro hv h13 hpre hvalid3
    have hd0 : phoneDigits v = v := phoneDigits_of_ascii hv
    have hred : phoneReduce v = v.drop 3 := by
      unfold phoneReduce lastN
      rw [hd0]
      dsimp only
      rw [if_pos (show (("977".data).isPrefixOf v && decide (v.length > 10)) = true from by
        rw [hpre, h13]
        decide)]
      rw [h13]
      simp only [show (13 : Nat) - 10 = 3 from rfl]
      rw [if_neg (by rw [List.length_drop, h13]; omega)]
    unfold normalize_phone
    rw [hred, if_pos hvalid3]
  · intro h3
    unfold normalize_phone
    rw [if_neg (by simp [h3])]
  · by_cases hval : phoneValid (phoneReduce v) = true
    · refine Or.inr ⟨?_, ?_⟩
      · unfold normalize_phone
        rw [if_pos hval]
        exact hval
      · unfold normalize_phone
        rw [if_pos hval]
        exact phoneReduce_ascii
    · left
      unfold normalize_phone
      rw [if_neg hval]

/-- Witness for C8 at concrete valid inputs. -/
theorem C8_witness :
    normalize_phone ("9779812345678".data) = ("9779812345678".data : PyStr).drop 3 ∧
    normalize_phone ("9812345678".data) = "9812345678".data := by
  have h := C8_phone_normalization ("9779812345678".data)
  have h2 := C8_phone_normalization ("9812345678".data)
  exact ⟨h.2.1 (by decide) (by decide) (by decide) (by decide),
    h2.1 (by decide) (by decide)⟩

end Spec2Proof
